import Mathlib

/-!
# Action-definition load pipeline

A shallow embedding of `pkg/action/loader.go`: the processor pipeline
(`pipeProcessor`), the environment processor (`envProcessor`), the
input-template processor (`inputProcessor`) with its helpers
`ConvertInputToTplVars`, `collectInputVars`, `addPredefinedVariables`,
`checkDashErr` and `findMissingVars`, and the pattern `rgxTplVar`; and of the
decorator `pluginPrintInput` of `test/plugins/printinput/plugin.go`.

Conventions of the embedding.

* Go `[]byte` and `string` are `String`; every operation is defined on the
  list of characters `String.data`.  The texts are taken to be valid UTF-8,
  on which Go's byte-level `Contains` and rune-level `regexp` agree with the
  character-level definitions below.  A `nil` byte slice is the empty text.
* A Go result pair `([]byte, error)` is `String × Option Err`; `none` is a
  `nil` error.
* A Go `map[string]any` is an association list `GoMap V` over an arbitrary
  value type `V` (`any`), read with `GoMap.find` and written with `GoMap.put`.
* Code that the loader calls but that lives in other packages
  (`text/template`, the process environment, `newPredefinedVars`) is a
  parameter of the definitions that use it.
-/

namespace Launchr

/-! ## Text -/

/-- Substring test on character lists, the model of `strings.Contains` and
`bytes.Contains`: some suffix of the text starts with `sub`. -/
def hasInfix : List Char → List Char → Bool
  | [], sub => sub.isEmpty
  | x :: xs, sub => sub.isPrefixOf (x :: xs) || hasInfix xs sub

/-- Go `strings.Contains(s, sub)` and `bytes.Contains(s, sub)`. -/
def contains (s sub : String) : Bool := hasInfix s.data sub.data

/-- Modelled from the spec: the replacer `replDashes` is declared in a file of
the package other than `loader.go`; the spec gives `replDashes.Replace(key)` as
the hyphen-to-underscore normalized alias of `key`, every `-` replaced by `_`. -/
def replDashes (key : String) : String :=
  ⟨key.data.map (fun c => if c = '-' then '_' else c)⟩

/-! ## Errors -/

/-- Go `error` values met by the loader: an error that is only a message
(`fmt.Errorf`, the errors of `text/template`), and `errMissingVar` with its set
of names (a list without repetition; Go leaves the order unspecified). -/
inductive Err where
  | msg (text : String)
  | errMissingVar (vars : List String)
  deriving DecidableEq, Repr

/-- The method `Error()`; for `errMissingVar` the names are printed with `%v`. -/
def Err.Error : Err → String
  | .msg text => text
  | .errMissingVar vars =>
    "the following variables were used but never defined: [" ++ " ".intercalate vars ++ "]"

/-! ## Maps -/

/-- A Go `map[string]V` as an association list; the first entry of a key is
its binding. -/
abbrev GoMap (V : Type) := List (String × V)

/-- Map read `m[k]` with the comma-ok flag: `none` when `k` is not a key. -/
def GoMap.find {V : Type} (m : GoMap V) (k : String) : Option V :=
  List.lookup k m

/-- Map write `m[k] = v`. -/
def GoMap.put {V : Type} (m : GoMap V) (k : String) (v : V) : GoMap V :=
  (k, v) :: m.filter (fun e => e.1 != k)

/-- The keys of a map, as met by `for k := range m`. -/
def GoMap.keys {V : Type} (m : GoMap V) : List String :=
  m.map Prod.fst

/-! ## Data model -/

/-- A declared parameter `DefParameter`: its name and its default value. -/
structure ParameterDef (V : Type) where
  Name : String
  Default : V
  deriving DecidableEq, Repr

/-- The type `ParametersList`. -/
abbrev ParametersList (V : Type) := List (ParameterDef V)

/-- The part of `DefAction` read by the loader. -/
structure DefAction (V : Type) where
  Arguments : ParametersList V
  Options : ParametersList V
  deriving DecidableEq, Repr

/-- The bound values of an invocation: the maps returned by `Input.Args()` and
`Input.Opts()`. -/
structure Input (V : Type) where
  Args : GoMap V
  Opts : GoMap V
  deriving DecidableEq, Repr

/-- Modelled from the spec: the interface `Runtime` and the constructor
`NewFnRuntime` are declared in files of the package other than `loader.go`.
The spec gives a runtime as the executable behaviour attached to an action, the
variant in scope wrapping an in-process callback; `fn callback` is
`NewFnRuntime` of the callback of that name, `other kind` a runtime of another
kind. -/
inductive Runtime where
  | fn (callback : String)
  | other (kind : String)
  deriving DecidableEq, Repr

/-- The part of `Action` read by the loader and by the decorators: `ID`,
`ActionDef()`, `Input()` and the attached runtime, unset until a decorator or
a discovery plugin sets it. -/
structure Action (V : Type) where
  ID : String
  ActionDef : DefAction V
  Input : Input V
  runtime : Option Runtime := none
  deriving DecidableEq, Repr

/-- The type `LoadContext`: an optional action (`nil` in raw mode). -/
structure LoadContext (V : Type) where
  Action : Option (Action V)
  deriving DecidableEq, Repr

/-- The interface `LoadProcessor`, by its method
`Process(LoadContext, []byte) ([]byte, error)`. -/
abbrev LoadProcessor (V : Type) := LoadContext V → String → String × Option Err

/-- Modelled from the spec: the type `predefinedVars` is declared outside
`loader.go`.  The spec describes built-in variables derived from an action with
two views, the lookup `getenv(key) (string, bool)` used by environment expansion
and the mapping `templateData()` merged into the template variables. -/
structure PredefinedVars (V : Type) where
  getenv : String → Option String
  templateData : GoMap V

/-- What the loader takes from its surroundings: how predefined variables are
derived from the (possibly absent) action, and the process environment, a
partial map from names to values. -/
structure Host (V : Type) where
  newPredefinedVars : Option (Action V) → PredefinedVars V
  environ : String → Option String

/-- The part of `text/template` used by `inputProcessor.Process`, for a
template named `name` with text `text`: `parse name text` is the error of
`template.New(name).Parse(text)`, and `execute name text data` is what
`Execute(buf, data)` wrote to the buffer with the error it returned. -/
structure TemplateEngine (V : Type) where
  parse : String → String → Option Err
  execute : String → String → GoMap V → String × Option Err

/-! ## The processor pipeline -/

/-- The method `pipeProcessor.Process` over the list `p.p`: each processor
receives the bytes returned by the one before; the first error ends the loop,
returning the bytes and the error of the processor that failed. -/
def pipeProcessor.Process {V : Type} (p : List (LoadProcessor V)) (ctx : LoadContext V)
    (b : String) : String × Option Err :=
  match p with
  | [] => (b, none)
  | proc :: rest =>
    match proc ctx b with
    | (b', some err) => (b', some err)
    | (b', none) => pipeProcessor.Process rest ctx b'

/-- The constructor `NewPipeProcessor(p...)`. -/
def NewPipeProcessor {V : Type} (p : List (LoadProcessor V)) : LoadProcessor V :=
  pipeProcessor.Process p

/-! ## Environment expansion -/

/-- Go `os.isShellSpecialVar`. -/
def isShellSpecialVar (c : Char) : Bool :=
  c ∈ ['*', '#', '$', '@', '!', '?', '-', '0', '1', '2', '3', '4', '5', '6', '7', '8', '9']

/-- Go `os.isAlphaNum`. -/
def isAlphaNum (c : Char) : Bool :=
  c = '_' || ('0' ≤ c && c ≤ '9') || ('a' ≤ c && c ≤ 'z') || ('A' ≤ c && c ≤ 'Z')

/-- The brace branch of `os.getShellName`, on the text after `{`: the name up
to the closing brace and the width consumed, the brace `{` included. -/
def getShellNameBrace (rest : List Char) : List Char × Nat :=
  let body := rest.takeWhile (fun c => c != '}')
  if body.length < rest.length then
    if body = [] then ([], 2) else (body, body.length + 2)
  else ([], 1)

/-- Go `os.getShellName` on a non-empty text following a `$`: the name and the
number of characters consumed. -/
def getShellName : List Char → List Char × Nat
  | [] => ([], 0)
  | '{' :: rest =>
    match rest with
    | c :: '}' :: _ => if isShellSpecialVar c then ([c], 3) else getShellNameBrace rest
    | _ => getShellNameBrace rest
  | c :: rest =>
    if isShellSpecialVar c then ([c], 1)
    else
      let name := (c :: rest).takeWhile isAlphaNum
      (name, name.length)

/-- The loop of `os.Expand`: `skip` counts the characters of a token still to
be passed over. -/
def expandAux (mapping : String → String) : Nat → List Char → List Char
  | _, [] => []
  | skip + 1, _ :: xs => expandAux mapping skip xs
  | 0, c :: xs =>
    if c = '$' ∧ xs ≠ [] then
      let nw := getShellName xs
      let out : List Char :=
        if nw.1 = [] ∧ 0 < nw.2 then []
        else if nw.1 = [] then [c]
        else (mapping ⟨nw.1⟩).data
      out ++ expandAux mapping nw.2 xs
    else c :: expandAux mapping 0 xs

/-- Go `os.Expand(s, mapping)`. -/
def Expand (s : String) (mapping : String → String) : String :=
  ⟨expandAux mapping 0 s.data⟩

/-- Modelled from the spec: `launchr.Getenv` is declared in the internal
package.  The spec gives it as the fallback to the process environment, an
unresolved name giving the empty string. -/
def Getenv (environ : String → Option String) (key : String) : String :=
  (environ key).getD ""

/-- The closure `getenv` of `envProcessor.Process`: a predefined variable when
`pv.getenv` reports one, `launchr.Getenv` otherwise. -/
def envProcessor.getenv {V : Type} (pv : PredefinedVars V) (environ : String → Option String)
    (key : String) : String :=
  match pv.getenv key with
  | some v => v
  | none => Getenv environ key

/-- The method `envProcessor.Process`. -/
def envProcessor.Process {V : Type} (h : Host V) : LoadProcessor V := fun ctx b =>
  let pv := h.newPredefinedVars ctx.Action
  let s := Expand b (envProcessor.getenv pv h.environ)
  (s, none)

/-! ## The pattern `rgxTplVar`

Go's `regexp` returns the match a backtracking search finds first: the
leftmost start, a lazy `.*?` trying fewer characters before more, a greedy
`\S+` trying more characters before fewer.  The pattern
`{{.*?\.(\S+).*?}}` is written with one combinator for each of its pieces,
each taking the matcher of what follows it. -/

/-- The class `.` (without the `s` flag): any character but a line feed. -/
def isDot (c : Char) : Bool := c != '\n'

/-- The class `\S`: any character outside `[\t\n\f\r ]`. -/
def isNonSpace (c : Char) : Bool :=
  !(c = '\t' || c = '\n' || c = '\x0c' || c = '\r' || c = ' ')

/-- A literal character, then `k`. -/
def rgxLit {α : Type} (c : Char) (k : List Char → Option α) : List Char → Option α
  | [] => none
  | x :: xs => if x = c then k xs else none

/-- The lazy star `cls*?`, then `k`: `k` is tried before one more character is
taken. -/
def rgxLazyStar {α : Type} (cls : Char → Bool) (k : List Char → Option α) :
    List Char → Option α
  | [] => k []
  | x :: xs =>
    match k (x :: xs) with
    | some r => some r
    | none => if cls x then rgxLazyStar cls k xs else none

/-- The greedy star `cls*` inside a capture group whose text so far is `acc`,
then `k` on the captured text: one more character is taken before `k` is
tried. -/
def rgxGreedyStar {α : Type} (cls : Char → Bool) (k : List Char → List Char → Option α)
    (acc : List Char) : List Char → Option α
  | [] => k acc []
  | x :: xs =>
    if cls x then
      match rgxGreedyStar cls k (acc ++ [x]) xs with
      | some r => some r
      | none => k acc (x :: xs)
    else k acc (x :: xs)

/-- The captured greedy plus `(cls+)`, then `k` on the captured text. -/
def rgxGreedyPlus {α : Type} (cls : Char → Bool) (k : List Char → List Char → Option α) :
    List Char → Option α
  | [] => none
  | x :: xs => if cls x then rgxGreedyStar cls k [x] xs else none

/-- The pattern `{{.*?\.(\S+).*?}}` anchored at the start of the text: the
text of group 1 and what is left of the text after the match. -/
def rgxTplVar.matchHere : List Char → Option (List Char × List Char) :=
  rgxLit '{' (rgxLit '{' (rgxLazyStar isDot (rgxLit '.' (rgxGreedyPlus isNonSpace
    (fun cap => rgxLazyStar isDot (rgxLit '}' (rgxLit '}' (fun rest => some (cap, rest)))))))))

/-- The scan of `FindAllSubmatch`: `skip` counts the characters of the last
match still to be passed over, the next match being searched from its end. -/
def rgxTplVar.findAll : Nat → List Char → List String
  | _, [] => []
  | skip + 1, _ :: xs => rgxTplVar.findAll skip xs
  | 0, x :: xs =>
    match rgxTplVar.matchHere (x :: xs) with
    | some (cap, rest) => ⟨cap⟩ :: rgxTplVar.findAll (xs.length - rest.length) xs
    | none => rgxTplVar.findAll 0 xs

/-- The texts `string(m[1])` for `m` in `rgxTplVar.FindAllSubmatch(orig, -1)`,
in the order of the matches. -/
def rgxTplVar.FindAllSubmatch (orig : String) : List String :=
  rgxTplVar.findAll 0 orig.data

/-! ## The input-template processor -/

/-- The body of the loop of `collectInputVars` for one declared parameter. -/
def collectInputVar {V : Type} (params : GoMap V) (values : GoMap V) (pdef : ParameterDef V) :
    GoMap V :=
  let key := pdef.Name
  let dval := pdef.Default
  let values := values.put key dval
  let values := values.put (replDashes key) dval
  match params.find pdef.Name with
  | some v => (values.put key v).put (replDashes key) v
  | none => values

/-- The function `collectInputVars(values, params, def)`; the map `values` is
updated in place in Go and returned here. -/
def collectInputVars {V : Type} (values : GoMap V) (params : GoMap V) (pdefs : ParametersList V) :
    GoMap V :=
  pdefs.foldl (collectInputVar params) values

/-- The function `ConvertInputToTplVars(input, ac)`. -/
def ConvertInputToTplVars {V : Type} (input : Input V) (ac : DefAction V) : GoMap V :=
  let args := input.Args
  let opts := input.Opts
  let values : GoMap V := []
  let values := collectInputVars values args ac.Arguments
  let values := collectInputVars values opts ac.Options
  values

/-- The function `addPredefinedVariables(data, a)`; the map `data` is updated
in place in Go and returned here. -/
def addPredefinedVariables {V : Type} (h : Host V) (data : GoMap V) (a : Action V) : GoMap V :=
  let pv := h.newPredefinedVars (some a)
  pv.templateData.foldl (fun data kv => data.put kv.1 kv.2) data

/-- The text of the error built by `checkDashErr`. -/
def dashErrText : String :=
  "unexpected '-' symbol in a template variable. \nAction definition is correct, but dashes are not allowed in templates, replace \"-\" with \"_\" in \x7b\x7b \x7d\x7d blocks"

/-- The function `checkDashErr(err, data)`. -/
def checkDashErr {V : Type} (err : Option Err) (data : GoMap V) : Option Err :=
  match err with
  | none => none
  | some e =>
    let hasDash := data.keys.any (fun k => contains k "-")
    if hasDash && contains e.Error "bad character U+002D '-'" then
      some (Err.msg dashErrText)
    else some e

/-- The set insertion `miss[k] = struct{}{}`. -/
def missInsert (miss : List String) (k : String) : List String :=
  if k ∈ miss then miss else miss ++ [k]

/-- The function `findMissingVars(orig, repl, data)`. -/
def findMissingVars {V : Type} (orig repl : String) (data : GoMap V) : Option Err :=
  if !contains repl "<no value>" then none
  else
    let matches_ := rgxTplVar.FindAllSubmatch orig
    let miss := matches_.foldl
      (fun miss k => if (data.find k).isNone then missInsert miss k else miss) []
    if miss.length != 0 then some (Err.errMissingVar miss) else none

/-- The method `inputProcessor.Process`. -/
def inputProcessor.Process {V : Type} (h : Host V) (e : TemplateEngine V) : LoadProcessor V :=
  fun ctx b =>
    match ctx.Action with
    | none => (b, none)
    | some a =>
      let def_ := a.ActionDef
      let data := ConvertInputToTplVars a.Input def_
      let data := addPredefinedVariables h data a
      let err := e.parse a.ID b
      match checkDashErr err data with
      | some err => ("", some err)
      | none =>
        match e.execute a.ID b data with
        | (_, some err) => ("", some err)
        | (res, none) =>
          match findMissingVars b res data with
          | some err => ("", some err)
          | none => (res, none)


/-! ## Reading a pipeline stage by stage -/

/-- The bytes `pk(...p2(p1(b))...)`: every processor of the list applied in
list order, each to the bytes returned by the one before, errors set aside. -/
def applyStages {V : Type} (ps : List (LoadProcessor V)) (ctx : LoadContext V) (b : String) :
    String :=
  ps.foldl (fun b p => (p ctx b).1) b

/-- What stage `k` (counted from 0) returns on the bytes handed to it, the
bytes produced by the stages before it; `none` when the list has no stage `k`. -/
def stageOutcome {V : Type} (ps : List (LoadProcessor V)) (ctx : LoadContext V) (b : String)
    (k : Nat) : Option (String × Option Err) :=
  (ps.get? k).map (fun p => p ctx (applyStages (ps.take k) ctx b))

/-- Every stage before stage `k` returns a nil error on the bytes handed to it. -/
def succeedBefore {V : Type} (ps : List (LoadProcessor V)) (ctx : LoadContext V) (b : String)
    (k : Nat) : Prop :=
  ∀ j, j < k → ∀ r, stageOutcome ps ctx b j = some r → r.2 = none

/-! ## A template engine for field references

The engine of `text/template` is a parameter of `inputProcessor.Process`.  To
run the processor on concrete texts, `fieldTemplate` gives the behaviour of
`text/template` on the texts whose actions are all of the form `{{.name}}`,
with optional white space around the reference: the value under `name` replaces
the action, `<no value>` replaces it when the map has no key `name`, and a `-`
met while reading the reference is the lexer's error
`bad character U+002D '-'`.  Every other action is outside this fragment and is
answered with the error `fieldTemplate.unsupported`. -/

/-- A parsed template: literal characters and field references. -/
inductive TplPiece where
  | char (c : Char)
  | field (name : String)
  deriving DecidableEq, Repr

/-- Where the scanner stands: in literal text, after one `{`, after `{{`,
inside a field name, after a field name, after the first `}`. -/
inductive TplState where
  | text
  | brace
  | opened
  | field (acc : List Char)
  | named (name : List Char)
  | closing (name : List Char)
  deriving DecidableEq, Repr

/-- The error for an action outside the fragment of field references. -/
def fieldTemplate.unsupported : Err := Err.msg "template: action outside the field-reference fragment"

/-- The error of the Go template lexer on a `-` inside a field reference, for the
template `name` at line `line`. -/
def fieldTemplate.badDash (name : String) (line : Nat) : Err :=
  Err.msg ("template: " ++ name ++ ":" ++ toString line ++ ": bad character U+002D '-'")

/-- White space inside an action. -/
def fieldTemplate.isSpace (c : Char) : Bool :=
  c = ' ' || c = '\t' || c = '\r' || c = '\n'

/-- The scanner: reads the text from state `st` on line `line`. -/
def fieldTemplate.scan (name : String) : TplState → Nat → List Char → Except Err (List TplPiece)
  | .text, _, [] => .ok []
  | .brace, _, [] => .ok [TplPiece.char '{']
  | _, _, [] => .error fieldTemplate.unsupported
  | st, line, c :: cs =>
    let line' := if c = '\n' then line + 1 else line
    match st with
    | .text =>
      if c = '{' then fieldTemplate.scan name .brace line' cs
      else
        match fieldTemplate.scan name .text line' cs with
        | .ok ps => .ok (TplPiece.char c :: ps)
        | .error e => .error e
    | .brace =>
      if c = '{' then fieldTemplate.scan name .opened line' cs
      else
        match fieldTemplate.scan name .text line' cs with
        | .ok ps => .ok (TplPiece.char '{' :: TplPiece.char c :: ps)
        | .error e => .error e
    | .opened =>
      if fieldTemplate.isSpace c then fieldTemplate.scan name .opened line' cs
      else if c = '.' then fieldTemplate.scan name (.field []) line' cs
      else .error fieldTemplate.unsupported
    | .field acc =>
      if isAlphaNum c then fieldTemplate.scan name (.field (acc ++ [c])) line' cs
      else if c = '-' then .error (fieldTemplate.badDash name line)
      else if acc = [] then .error fieldTemplate.unsupported
      else if fieldTemplate.isSpace c then fieldTemplate.scan name (.named acc) line' cs
      else if c = '}' then fieldTemplate.scan name (.closing acc) line' cs
      else .error fieldTemplate.unsupported
    | .named acc =>
      if fieldTemplate.isSpace c then fieldTemplate.scan name (.named acc) line' cs
      else if c = '}' then fieldTemplate.scan name (.closing acc) line' cs
      else .error fieldTemplate.unsupported
    | .closing acc =>
      if c = '}' then
        match fieldTemplate.scan name .text line' cs with
        | .ok ps => .ok (TplPiece.field ⟨acc⟩ :: ps)
        | .error e => .error e
      else .error fieldTemplate.unsupported

/-- The text written for one piece: a field prints the value under its name,
or `<no value>` when the map has no such key. -/
def fieldTemplate.render (data : GoMap String) : TplPiece → List Char
  | .char c => [c]
  | .field name =>
    match data.find name with
    | some v => v.data
    | none => "<no value>".data

/-- The engine of field references, over string values. -/
def fieldTemplate : TemplateEngine String where
  parse := fun name text =>
    match fieldTemplate.scan name .text 1 text.data with
    | .ok _ => none
    | .error e => some e
  execute := fun name text data =>
    match fieldTemplate.scan name .text 1 text.data with
    | .ok ps => (⟨(ps.map (fieldTemplate.render data)).flatten⟩, none)
    | .error e => ("", some e)

/-! ## Sample surroundings -/

/-- A host without predefined variables whose process environment binds
`FOO` to `bar` and nothing else. -/
def sampleHost : Host String where
  newPredefinedVars := fun _ => { getenv := fun _ => none, templateData := [] }
  environ := fun key => if key = "FOO" then some "bar" else none

/-- An action with one argument `v`, bound to `x`, and one option `my-name`
with default `anon`, left unbound. -/
def sampleAction : Action String where
  ID := "sample"
  ActionDef := { Arguments := [{ Name := "v", Default := "" }],
                 Options := [{ Name := "my-name", Default := "anon" }] }
  Input := { Args := [("v", "x")], Opts := [] }

/-- The pipeline of the loader: environment expansion, then input templates. -/
def samplePipeline : List (LoadProcessor String) :=
  [envProcessor.Process sampleHost, inputProcessor.Process sampleHost fieldTemplate]

/-! ## Reading the variable mapping parameter by parameter -/

/-- The value a declared parameter resolves to against the input map of its
list: the bound value when the map has its name, its default otherwise. -/
def resolvedValue {V : Type} (params : GoMap V) (pdef : ParameterDef V) : V :=
  match params.find pdef.Name with
  | some v => v
  | none => pdef.Default

/-- The keys written by `collectInputVars` for a declared parameter: its
literal name and its hyphen-to-underscore alias. -/
def writesKey {V : Type} (pdef : ParameterDef V) (k : String) : Bool :=
  pdef.Name == k || replDashes pdef.Name == k

/-- The last parameter of a list, in list order, that writes the key `k`. -/
def lastWriter {V : Type} (k : String) : ParametersList V → Option (ParameterDef V)
  | [] => none
  | pdef :: rest =>
    match lastWriter k rest with
    | some q => some q
    | none => if writesKey pdef k then some pdef else none

/-- An action without declared parameters. -/
def bareAction : Action String where
  ID := "bare"
  ActionDef := { Arguments := [], Options := [] }
  Input := { Args := [], Opts := [] }

/-- An action whose only declared parameter is the argument `name`, bound to
`x`: no key of its variable mapping has a hyphen. -/
def plainAction : Action String where
  ID := "plain"
  ActionDef := { Arguments := [{ Name := "name", Default := "" }], Options := [] }
  Input := { Args := [("name", "x")], Opts := [] }

/-- A host with the predefined variable `ACTION_ID`, bound to `sample`, whose
process environment binds `ACTION_ID` to `other` and `FOO` to `bar`. -/
def predefinedHost : Host String where
  newPredefinedVars := fun _ =>
    { getenv := fun key => if key = "ACTION_ID" then some "sample" else none,
      templateData := [("action_id", "sample")] }
  environ := fun key =>
    if key = "ACTION_ID" then some "other" else if key = "FOO" then some "bar" else none

/-- A host without predefined variables whose process environment binds `FOO`
to `val` and nothing else. -/
def fooHost (val : String) : Host String where
  newPredefinedVars := fun _ => { getenv := fun _ => none, templateData := [] }
  environ := fun key => if key = "FOO" then some val else none

/-! ## The decorator of the plugin `printinput` -/

/-- Go `strings.HasPrefix(s, pre)`. -/
def hasPrefix (s pre : String) : Bool := pre.data.isPrefixOf s.data

/-- Modelled from the spec: the method `Action.SetRuntime` is declared outside
the files at hand; the spec gives it as attaching, or overriding, the runtime
of the action.  The action is updated in place in Go and returned here. -/
def SetRuntime {V : Type} (a : Action V) (r : Runtime) : Action V :=
  { a with runtime := some r }

/-- The decorator `pluginPrintInput(_, a)` of `test/plugins/printinput`: an
action whose ID lacks the prefix is left alone, any other receives the function
runtime around the callback that prints its input. -/
def pluginPrintInput {V : Type} (a : Action V) : Action V :=
  if !hasPrefix a.ID "test-print-input:" then a
  else SetRuntime a (Runtime.fn "printInput")

/-- An action within the filter of `pluginPrintInput`, with a runtime of
another kind attached. -/
def printAction : Action String where
  ID := "test-print-input:args"
  ActionDef := { Arguments := [{ Name := "v", Default := "" }], Options := [] }
  Input := { Args := [("v", "x")], Opts := [] }
  runtime := some (Runtime.other "container")

/-! ## Lemmas on texts and on the pipeline -/

set_option maxRecDepth 8000

/-- The substring test is the infix relation on character lists. -/
theorem hasInfix_iff (s sub : List Char) : hasInfix s sub = true ↔ sub <:+: s := by
  induction s with
  | nil =>
    cases sub <;> simp [hasInfix]
  | cons x xs ih =>
    rw [hasInfix, Bool.or_eq_true, ih, List.infix_cons_iff, List.isPrefixOf_iff_prefix]

theorem stageOutcome_zero {V : Type} (p : LoadProcessor V) (rest : List (LoadProcessor V))
    (ctx : LoadContext V) (b : String) :
    stageOutcome (p :: rest) ctx b 0 = some (p ctx b) := by
  simp [stageOutcome, applyStages]

theorem stageOutcome_succ {V : Type} (p : LoadProcessor V) (rest : List (LoadProcessor V))
    (ctx : LoadContext V) (b : String) (j : Nat) :
    stageOutcome (p :: rest) ctx b (j + 1) = stageOutcome rest ctx (p ctx b).1 j := by
  simp [stageOutcome, applyStages]

theorem succeedBefore_tail {V : Type} (p : LoadProcessor V) (rest : List (LoadProcessor V))
    (ctx : LoadContext V) (b : String) (k : Nat)
    (h : succeedBefore (p :: rest) ctx b (k + 1)) :
    (p ctx b).2 = none ∧ succeedBefore rest ctx (p ctx b).1 k := by
  refine ⟨h 0 (Nat.succ_pos k) _ (stageOutcome_zero p rest ctx b), ?_⟩
  intro j hj r hr
  exact h (j + 1) (Nat.succ_lt_succ hj) r (by rw [stageOutcome_succ]; exact hr)

theorem pipe_cons_ok {V : Type} (p : LoadProcessor V) (rest : List (LoadProcessor V))
    (ctx : LoadContext V) (b : String) (h : (p ctx b).2 = none) :
    pipeProcessor.Process (p :: rest) ctx b = pipeProcessor.Process rest ctx (p ctx b).1 := by
  rcases hp : p ctx b with ⟨b', e⟩
  rw [hp] at h
  simp only at h
  subst h
  simp [pipeProcessor.Process, hp]

theorem pipe_cons_err {V : Type} (p : LoadProcessor V) (rest : List (LoadProcessor V))
    (ctx : LoadContext V) (b : String) (h : (p ctx b).2 ≠ none) :
    pipeProcessor.Process (p :: rest) ctx b = p ctx b := by
  rcases hp : p ctx b with ⟨b', e⟩
  rw [hp] at h
  cases e with
  | none => exact absurd rfl h
  | some e => simp [pipeProcessor.Process, hp]

/-- When the stages of a pipeline all succeed, it returns the bytes of the
last one and a nil error. -/
theorem pipe_all_succeed {V : Type} (ps : List (LoadProcessor V)) (ctx : LoadContext V) :
    ∀ b : String, succeedBefore ps ctx b ps.length →
      pipeProcessor.Process ps ctx b = (applyStages ps ctx b, none) := by
  induction ps with
  | nil => intro b _; rfl
  | cons p rest ih =>
    intro b h
    obtain ⟨h0, ht⟩ := succeedBefore_tail p rest ctx b rest.length h
    rw [pipe_cons_ok p rest ctx b h0, ih _ ht]
    simp [applyStages]

/-- When stage `k` is the first to fail, the pipeline returns what stage `k`
returned. -/
theorem pipe_first_failure {V : Type} (ps : List (LoadProcessor V)) (ctx : LoadContext V) :
    ∀ (b : String) (k : Nat) (bk : String) (e : Err), succeedBefore ps ctx b k →
      stageOutcome ps ctx b k = some (bk, some e) →
      pipeProcessor.Process ps ctx b = (bk, some e) := by
  induction ps with
  | nil => intro b k bk e _ hk; simp [stageOutcome] at hk
  | cons p rest ih =>
    intro b k bk e hpre hk
    cases k with
    | zero =>
      rw [stageOutcome_zero] at hk
      have hp : p ctx b = (bk, some e) := Option.some.inj hk
      rw [pipe_cons_err p rest ctx b (by rw [hp]; simp), hp]
    | succ k =>
      obtain ⟨h0, ht⟩ := succeedBefore_tail p rest ctx b k hpre
      rw [pipe_cons_ok p rest ctx b h0]
      rw [stageOutcome_succ] at hk
      exact ih _ k bk e ht hk

/-- A pipeline that returns an error has a first failing stage. -/
theorem pipe_error_has_first_failure {V : Type} (ps : List (LoadProcessor V))
    (ctx : LoadContext V) :
    ∀ b : String, (pipeProcessor.Process ps ctx b).2 ≠ none →
      ∃ k bk e, succeedBefore ps ctx b k ∧ stageOutcome ps ctx b k = some (bk, some e) := by
  induction ps with
  | nil => intro b h; exact absurd rfl h
  | cons p rest ih =>
    intro b h
    by_cases hp : (p ctx b).2 = none
    · rw [pipe_cons_ok p rest ctx b hp] at h
      obtain ⟨k, bk, e, hpre, hk⟩ := ih _ h
      refine ⟨k + 1, bk, e, ?_, by rw [stageOutcome_succ]; exact hk⟩
      intro j hj r hr
      cases j with
      | zero =>
        rw [stageOutcome_zero] at hr
        rw [← Option.some.inj hr]; exact hp
      | succ j =>
        rw [stageOutcome_succ] at hr
        exact hpre j (Nat.lt_of_succ_lt_succ hj) r hr
    · rcases hq : p ctx b with ⟨b', e⟩
      cases e with
      | none => rw [hq] at hp; exact absurd rfl hp
      | some e =>
        refine ⟨0, b', e, ?_, by rw [stageOutcome_zero, hq]⟩
        intro j hj; exact absurd hj (Nat.not_lt_zero j)

/-- The outcome of a stage depends only on the stages up to it. -/
theorem stageOutcome_congr {V : Type} (ps qs : List (LoadProcessor V)) (ctx : LoadContext V)
    (b : String) (k j : Nat) (h : qs.take (k + 1) = ps.take (k + 1)) (hj : j ≤ k) :
    stageOutcome qs ctx b j = stageOutcome ps ctx b j := by
  have h1 : qs.get? j = ps.get? j := by
    have hq : (qs.take (k + 1)).get? j = qs.get? j := by
      simp only [List.get?_eq_getElem?]
      exact List.getElem?_take_of_lt (by omega)
    have hp : (ps.take (k + 1)).get? j = ps.get? j := by
      simp only [List.get?_eq_getElem?]
      exact List.getElem?_take_of_lt (by omega)
    rw [← hq, ← hp, h]
  have h2 : qs.take j = ps.take j := by
    have hq : (qs.take (k + 1)).take j = qs.take j := by
      rw [List.take_take, Nat.min_eq_left (by omega)]
    have hp : (ps.take (k + 1)).take j = ps.take j := by
      rw [List.take_take, Nat.min_eq_left (by omega)]
    rw [← hq, ← hp, h]
  simp only [stageOutcome, h1, h2]

/-! ## The pipeline: claims -/

/-- C1: when every stage of the pipe processor built by `NewPipeProcessor` from
`p1..pn` succeeds on the bytes handed to it, the pipe processor returns
`pn(...p2(p1(b))...)`, each stage applied in list order to the output of the one
before, with a nil error; built from the empty list it returns `b` unchanged. -/
theorem pipe_applies_stages_in_order {V : Type} (ps : List (LoadProcessor V))
    (ctx : LoadContext V) (b : String) :
    (succeedBefore ps ctx b ps.length →
      NewPipeProcessor ps ctx b = (applyStages ps ctx b, none)) ∧
    NewPipeProcessor ([] : List (LoadProcessor V)) ctx b = (b, none) :=
  ⟨fun h => pipe_all_succeed ps ctx b h, rfl⟩

/-- C1 at the loader's pipeline, on the source `${FOO}-{{.v}}` with `FOO=bar`
and the argument `v` bound to `x`. -/
theorem pipe_applies_stages_in_order_witness :
    succeedBefore samplePipeline ⟨some sampleAction⟩ "${FOO}-\x7b\x7b.v\x7d\x7d"
        samplePipeline.length ∧
      NewPipeProcessor samplePipeline ⟨some sampleAction⟩ "${FOO}-\x7b\x7b.v\x7d\x7d" =
        (applyStages samplePipeline ⟨some sampleAction⟩ "${FOO}-\x7b\x7b.v\x7d\x7d", none) ∧
      applyStages samplePipeline ⟨some sampleAction⟩ "${FOO}-\x7b\x7b.v\x7d\x7d" = "bar-x" := by
  have h : succeedBefore samplePipeline ⟨some sampleAction⟩ "${FOO}-\x7b\x7b.v\x7d\x7d"
      samplePipeline.length := by
    intro j hj r hr
    have h0 : stageOutcome samplePipeline ⟨some sampleAction⟩ "${FOO}-\x7b\x7b.v\x7d\x7d" 0 =
        some ("bar-\x7b\x7b.v\x7d\x7d", none) := by decide
    have h1 : stageOutcome samplePipeline ⟨some sampleAction⟩ "${FOO}-\x7b\x7b.v\x7d\x7d" 1 =
        some ("bar-x", none) := by decide
    have hj2 : j < 2 := hj
    interval_cases j
    · rw [h0] at hr; rw [← Option.some.inj hr]
    · rw [h1] at hr; rw [← Option.some.inj hr]
  exact ⟨h, (pipe_applies_stages_in_order samplePipeline ⟨some sampleAction⟩ _).1 h, by decide⟩

/-- C2: when stage `k` is the first stage of a pipe processor to return an
error, the pipe processor returns exactly that error, and so does every pipe
processor with the same stages up to `k` whatever its later stages are; and the
pipe processor returns an error if and only if some stage fails on the bytes
handed to it by the stages before, which all succeeded. -/
theorem pipe_short_circuits_on_first_error {V : Type} (ps : List (LoadProcessor V))
    (ctx : LoadContext V) (b : String) :
    (∀ (k : Nat) (bk : String) (e : Err), succeedBefore ps ctx b k →
      stageOutcome ps ctx b k = some (bk, some e) →
      (NewPipeProcessor ps ctx b).2 = some e ∧
      ∀ qs : List (LoadProcessor V), qs.take (k + 1) = ps.take (k + 1) →
        NewPipeProcessor qs ctx b = NewPipeProcessor ps ctx b) ∧
    ((NewPipeProcessor ps ctx b).2 ≠ none ↔
      ∃ k bk e, succeedBefore ps ctx b k ∧ stageOutcome ps ctx b k = some (bk, some e)) := by
  have key : ∀ (k : Nat) (bk : String) (e : Err), succeedBefore ps ctx b k →
      stageOutcome ps ctx b k = some (bk, some e) →
      ∀ qs : List (LoadProcessor V), qs.take (k + 1) = ps.take (k + 1) →
        NewPipeProcessor qs ctx b = (bk, some e) := by
    intro k bk e hpre hk qs hqs
    apply pipe_first_failure qs ctx b k bk e
    · intro j hj r hr
      rw [stageOutcome_congr ps qs ctx b k j hqs (Nat.le_of_lt hj)] at hr
      exact hpre j hj r hr
    · rw [stageOutcome_congr ps qs ctx b k k hqs (Nat.le_refl k)]
      exact hk
  refine ⟨?_, ?_, ?_⟩
  · intro k bk e hpre hk
    have hps := key k bk e hpre hk ps rfl
    refine ⟨by rw [hps], ?_⟩
    intro qs hqs
    rw [hps, key k bk e hpre hk qs hqs]
  · exact pipe_error_has_first_failure ps ctx b
  · rintro ⟨k, bk, e, hpre, hk⟩
    rw [key k bk e hpre hk ps rfl]
    simp

/-- C2 at the loader's pipeline, on a source whose template stage fails: the
environment stage succeeds and the error is the one of the template stage. -/
theorem pipe_short_circuits_on_first_error_witness :
    succeedBefore samplePipeline ⟨some sampleAction⟩ "${FOO}: \x7b\x7b .my-name \x7d\x7d" 1 ∧
      stageOutcome samplePipeline ⟨some sampleAction⟩ "${FOO}: \x7b\x7b .my-name \x7d\x7d" 1 =
        some ("", some (Err.msg dashErrText)) ∧
      (NewPipeProcessor samplePipeline ⟨some sampleAction⟩
        "${FOO}: \x7b\x7b .my-name \x7d\x7d").2 = some (Err.msg dashErrText) := by
  have h : succeedBefore samplePipeline ⟨some sampleAction⟩
      "${FOO}: \x7b\x7b .my-name \x7d\x7d" 1 := by
    intro j hj r hr
    have h0 : stageOutcome samplePipeline ⟨some sampleAction⟩
        "${FOO}: \x7b\x7b .my-name \x7d\x7d" 0 =
        some ("bar: \x7b\x7b .my-name \x7d\x7d", none) := by decide
    interval_cases j
    rw [h0] at hr; rw [← Option.some.inj hr]
  have h1 : stageOutcome samplePipeline ⟨some sampleAction⟩
      "${FOO}: \x7b\x7b .my-name \x7d\x7d" 1 = some ("", some (Err.msg dashErrText)) := by
    decide
  exact ⟨h, h1, ((pipe_short_circuits_on_first_error samplePipeline ⟨some sampleAction⟩ _).1
    1 "" (Err.msg dashErrText) h h1).1⟩

/-- The template processor returns nil bytes with every error it returns. -/
theorem inputProcessor_error_bytes {V : Type} (h : Host V) (eng : TemplateEngine V)
    (ctx : LoadContext V) (b : String)
    (herr : (inputProcessor.Process h eng ctx b).2 ≠ none) :
    (inputProcessor.Process h eng ctx b).1 = "" := by
  unfold inputProcessor.Process at herr ⊢
  rcases ctx with ⟨_ | a⟩
  · exact absurd rfl herr
  · simp only at herr ⊢
    split
    · rfl
    · split
      · rfl
      · split
        · rfl
        · rename_i h1 _ _ h2 _ h3
          simp only [h1, h2, h3] at herr
          exact absurd rfl herr

/-- C3 as stated fails: on the source `${FOO}: {{ .my-name }}` the loader's
pipeline fails first at its template stage, after the environment stage turned
the source into `bar: {{ .my-name }}`, and the bytes returned with the error are
the nil bytes of the template stage, not the environment-expanded source. -/
theorem pipe_error_bytes_counterexample :
    stageOutcome samplePipeline ⟨some sampleAction⟩ "${FOO}: \x7b\x7b .my-name \x7d\x7d" 0 =
        some ("bar: \x7b\x7b .my-name \x7d\x7d", none) ∧
      stageOutcome samplePipeline ⟨some sampleAction⟩ "${FOO}: \x7b\x7b .my-name \x7d\x7d" 1 =
        some ("", some (Err.msg dashErrText)) ∧
      applyStages (samplePipeline.take 1) ⟨some sampleAction⟩
        "${FOO}: \x7b\x7b .my-name \x7d\x7d" = "bar: \x7b\x7b .my-name \x7d\x7d" ∧
      (NewPipeProcessor samplePipeline ⟨some sampleAction⟩
        "${FOO}: \x7b\x7b .my-name \x7d\x7d").1 = "" ∧
      (NewPipeProcessor samplePipeline ⟨some sampleAction⟩
        "${FOO}: \x7b\x7b .my-name \x7d\x7d").1 ≠
        applyStages (samplePipeline.take 1) ⟨some sampleAction⟩
          "${FOO}: \x7b\x7b .my-name \x7d\x7d" := by
  decide

/-- C3, amended: when stage `k` is the first stage of a pipe processor to fail,
the bytes returned together with the error are the bytes that stage `k` itself
returned with its error on the output of the stages before it; for the pipeline
of the environment processor followed by the template processor, with a failing
template stage, the returned bytes are the nil bytes of the template stage. -/
theorem pipe_error_returns_failing_stage_bytes {V : Type} (ps : List (LoadProcessor V))
    (ctx : LoadContext V) (b : String) :
    (∀ (k : Nat) (bk : String) (e : Err), succeedBefore ps ctx b k →
      stageOutcome ps ctx b k = some (bk, some e) →
      (NewPipeProcessor ps ctx b).1 = bk) ∧
    (∀ (h : Host V) (eng : TemplateEngine V),
      (inputProcessor.Process h eng ctx (envProcessor.Process h ctx b).1).2 ≠ none →
      (NewPipeProcessor [envProcessor.Process h, inputProcessor.Process h eng] ctx b).1 = "" ∧
      (NewPipeProcessor [envProcessor.Process h, inputProcessor.Process h eng] ctx b).2 =
        (inputProcessor.Process h eng ctx (envProcessor.Process h ctx b).1).2) := by
  refine ⟨?_, ?_⟩
  · intro k bk e hpre hk
    show (pipeProcessor.Process ps ctx b).1 = bk
    rw [pipe_first_failure ps ctx b k bk e hpre hk]
  · intro h eng herr
    have henv : (envProcessor.Process h ctx b).2 = none := rfl
    have hpipe : NewPipeProcessor [envProcessor.Process h, inputProcessor.Process h eng] ctx b =
        inputProcessor.Process h eng ctx (envProcessor.Process h ctx b).1 := by
      show pipeProcessor.Process _ ctx b = _
      rw [pipe_cons_ok _ _ ctx b henv, pipe_cons_err _ _ ctx _ herr]
    rw [hpipe]
    exact ⟨inputProcessor_error_bytes h eng ctx _ herr, rfl⟩

/-- C3, amended, at the loader's pipeline on the source `${FOO}: {{ .my-name }}`:
the template stage is the first to fail and its nil bytes are returned. -/
theorem pipe_error_returns_failing_stage_bytes_witness :
    (succeedBefore samplePipeline ⟨some sampleAction⟩ "${FOO}: \x7b\x7b .my-name \x7d\x7d" 1 ∧
      stageOutcome samplePipeline ⟨some sampleAction⟩ "${FOO}: \x7b\x7b .my-name \x7d\x7d" 1 =
        some ("", some (Err.msg dashErrText)) ∧
      (NewPipeProcessor samplePipeline ⟨some sampleAction⟩
        "${FOO}: \x7b\x7b .my-name \x7d\x7d").1 = "") ∧
    ((inputProcessor.Process sampleHost fieldTemplate ⟨some sampleAction⟩
        (envProcessor.Process sampleHost ⟨some sampleAction⟩
          "${FOO}: \x7b\x7b .my-name \x7d\x7d").1).2 ≠ none ∧
      (NewPipeProcessor
        [envProcessor.Process sampleHost, inputProcessor.Process sampleHost fieldTemplate]
        ⟨some sampleAction⟩ "${FOO}: \x7b\x7b .my-name \x7d\x7d").1 = "") := by
  have h : succeedBefore samplePipeline ⟨some sampleAction⟩
      "${FOO}: \x7b\x7b .my-name \x7d\x7d" 1 := by
    intro j hj r hr
    have h0 : stageOutcome samplePipeline ⟨some sampleAction⟩
        "${FOO}: \x7b\x7b .my-name \x7d\x7d" 0 =
        some ("bar: \x7b\x7b .my-name \x7d\x7d", none) := by decide
    interval_cases j
    rw [h0] at hr; rw [← Option.some.inj hr]
  have h1 : stageOutcome samplePipeline ⟨some sampleAction⟩
      "${FOO}: \x7b\x7b .my-name \x7d\x7d" 1 = some ("", some (Err.msg dashErrText)) := by
    decide
  exact ⟨⟨h, h1, (pipe_error_returns_failing_stage_bytes samplePipeline ⟨some sampleAction⟩
      "${FOO}: \x7b\x7b .my-name \x7d\x7d").1 1 "" (Err.msg dashErrText) h h1⟩,
    by decide,
    ((pipe_error_returns_failing_stage_bytes samplePipeline ⟨some sampleAction⟩
      "${FOO}: \x7b\x7b .my-name \x7d\x7d").2 sampleHost fieldTemplate (by decide)).1⟩

/-! ## The variable mapping: lemmas -/

theorem GoMap.find_put_self {V : Type} (m : GoMap V) (k : String) (v : V) :
    (m.put k v).find k = some v := by
  simp [GoMap.find, GoMap.put, List.lookup]

theorem GoMap.find_filter_ne {V : Type} (m : GoMap V) (k k' : String) (h : k' ≠ k) :
    List.lookup k' (m.filter (fun e => e.1 != k)) = List.lookup k' m := by
  induction m with
  | nil => rfl
  | cons e rest ih =>
    obtain ⟨ek, ev⟩ := e
    by_cases hek : ek = k
    · subst hek
      have hne : (k' == ek) = false := by simpa using h
      simp [List.filter, List.lookup, hne, ih]
    · have hk : (ek != k) = true := by simpa using hek
      simp only [List.filter, hk, List.lookup]
      rw [ih]

theorem GoMap.find_put_ne {V : Type} (m : GoMap V) (k k' : String) (v : V) (h : k' ≠ k) :
    (m.put k v).find k' = m.find k' := by
  have hne : (k' == k) = false := by simpa using h
  simp only [GoMap.find, GoMap.put, List.lookup, hne]
  exact GoMap.find_filter_ne m k k' h

theorem GoMap.find_put {V : Type} (m : GoMap V) (k k' : String) (v : V) :
    (m.put k v).find k' = if k = k' then some v else m.find k' := by
  by_cases h : k = k'
  · subst h; simp [GoMap.find_put_self]
  · simp [h, GoMap.find_put_ne m k k' v (Ne.symm h)]

/-- One turn of the loop of `collectInputVars`: the two keys of the parameter
receive its resolved value, every other key is left as it was. -/
theorem find_collectInputVar {V : Type} (params values : GoMap V) (pdef : ParameterDef V)
    (k : String) :
    (collectInputVar params values pdef).find k =
      if writesKey pdef k then some (resolvedValue params pdef) else values.find k := by
  unfold collectInputVar resolvedValue writesKey
  cases hp : params.find pdef.Name with
  | none =>
    simp only [GoMap.find_put]
    by_cases h1 : pdef.Name = k <;> by_cases h2 : replDashes pdef.Name = k <;> simp [h1, h2]
  | some v =>
    simp only [GoMap.find_put]
    by_cases h1 : pdef.Name = k <;> by_cases h2 : replDashes pdef.Name = k <;> simp [h1, h2]

/-- The value under a key after `collectInputVars`: the resolved value of the
last parameter that writes the key, the value held before when none does. -/
theorem find_collectInputVars {V : Type} (params : GoMap V) (pdefs : ParametersList V) :
    ∀ (values : GoMap V) (k : String),
      (collectInputVars values params pdefs).find k =
        match lastWriter k pdefs with
        | some q => some (resolvedValue params q)
        | none => values.find k := by
  induction pdefs with
  | nil => intro values k; rfl
  | cons pdef rest ih =>
    intro values k
    show (collectInputVars (collectInputVar params values pdef) params rest).find k = _
    rw [ih]
    simp only [lastWriter]
    cases hl : lastWriter k rest with
    | some q => rfl
    | none =>
      simp only [find_collectInputVar]
      by_cases hw : writesKey pdef k = true <;> simp [hw]

/-- The value under a key of the mapping of `ConvertInputToTplVars`. -/
theorem find_ConvertInputToTplVars {V : Type} (input : Input V) (ac : DefAction V)
    (k : String) :
    (ConvertInputToTplVars input ac).find k =
      match lastWriter k ac.Options with
      | some q => some (resolvedValue input.Opts q)
      | none =>
        match lastWriter k ac.Arguments with
        | some q => some (resolvedValue input.Args q)
        | none => none := by
  unfold ConvertInputToTplVars
  simp only [find_collectInputVars]
  rfl

theorem lastWriter_congr {V : Type} (k k' : String) (pdefs : ParametersList V)
    (h : ∀ q ∈ pdefs, writesKey q k = writesKey q k') :
    lastWriter k pdefs = lastWriter k' pdefs := by
  induction pdefs with
  | nil => rfl
  | cons pdef rest ih =>
    have hr := ih (fun q hq => h q (List.mem_cons_of_mem _ hq))
    simp only [lastWriter, hr, h pdef (List.mem_cons_self _ _)]

theorem lastWriter_eq_none {V : Type} (k : String) (pdefs : ParametersList V)
    (h : ∀ q ∈ pdefs, writesKey q k = false) :
    lastWriter k pdefs = none := by
  induction pdefs with
  | nil => rfl
  | cons pdef rest ih =>
    simp [lastWriter, ih (fun q hq => h q (List.mem_cons_of_mem _ hq)),
      h pdef (List.mem_cons_self _ _)]

theorem lastWriter_isSome {V : Type} (k : String) (pdefs : ParametersList V)
    (p : ParameterDef V) (hp : p ∈ pdefs) (hw : writesKey p k = true) :
    ∃ q, lastWriter k pdefs = some q := by
  induction pdefs with
  | nil => cases hp
  | cons pdef rest ih =>
    simp only [lastWriter]
    cases hl : lastWriter k rest with
    | some q => exact ⟨q, rfl⟩
    | none =>
      rcases List.mem_cons.mp hp with rfl | hmem
      · exact ⟨p, by simp [hw]⟩
      · obtain ⟨q, hq⟩ := ih hmem
        rw [hl] at hq; cases hq

theorem lastWriter_append_cons {V : Type} (k : String) (pre post : ParametersList V)
    (p : ParameterDef V) (hw : writesKey p k = true)
    (hpost : ∀ q ∈ post, writesKey q k = false) :
    lastWriter k (pre ++ p :: post) = some p := by
  induction pre with
  | nil => simp [lastWriter, lastWriter_eq_none k post hpost, hw]
  | cons a pre ih => simp [lastWriter, ih]

theorem replDashes_idem (s : String) : replDashes (replDashes s) = replDashes s := by
  simp only [replDashes, List.map_map]
  congr 1
  apply List.map_congr_left
  intro c _
  by_cases h : c = '-' <;> simp [h]

theorem writesKey_self {V : Type} (p : ParameterDef V) : writesKey p p.Name = true := by
  simp [writesKey]

/-- A parameter that shares its underscore form with `p` only if it shares its
name writes the name of `p` exactly when it writes the alias of `p`. -/
theorem writesKey_alias_of_same_name {V : Type} (p q : ParameterDef V)
    (hu : replDashes q.Name = replDashes p.Name → q.Name = p.Name) :
    writesKey q p.Name = writesKey q (replDashes p.Name) := by
  by_cases hn : q.Name = p.Name
  · simp [writesKey, hn]
  · have h1 : replDashes q.Name ≠ replDashes p.Name := fun h => hn (hu h)
    have h2 : replDashes q.Name ≠ p.Name := by
      intro h
      apply h1
      rw [← h, replDashes_idem]
    have h3 : q.Name ≠ replDashes p.Name := by
      intro h
      apply h1
      rw [h, replDashes_idem]
    simp only [writesKey, beq_eq_false_iff_ne.mpr hn, beq_eq_false_iff_ne.mpr h1,
      beq_eq_false_iff_ne.mpr h2, beq_eq_false_iff_ne.mpr h3]

theorem lastWriter_append {V : Type} (k : String) (pre l : ParametersList V) :
    lastWriter k (pre ++ l) =
      match lastWriter k l with
      | some q => some q
      | none => lastWriter k pre := by
  induction pre with
  | nil =>
    rw [List.nil_append]
    cases h : lastWriter k l <;> simp [lastWriter]
  | cons a pre ih =>
    rw [List.cons_append]
    simp only [lastWriter, ih]
    cases h : lastWriter k l <;> simp

/-- From a parameter `p` on, when the later parameters collide with `p` on the
underscore form only by having its name, the name and the alias of `p` have
the same last writer. -/
theorem lastWriter_alias_suffix {V : Type} (pre post : ParametersList V) (p : ParameterDef V)
    (hlater : ∀ q, q ∈ post → replDashes q.Name = replDashes p.Name → q.Name = p.Name) :
    lastWriter p.Name (pre ++ p :: post) = lastWriter (replDashes p.Name) (pre ++ p :: post) := by
  have hsuf : lastWriter p.Name (p :: post) = lastWriter (replDashes p.Name) (p :: post) := by
    apply lastWriter_congr
    intro q hq
    rcases List.mem_cons.mp hq with rfl | hq
    · exact writesKey_alias_of_same_name q q (fun _ => rfl)
    · exact writesKey_alias_of_same_name p q (hlater q hq)
  obtain ⟨w, hw⟩ := lastWriter_isSome p.Name (p :: post) p (List.mem_cons_self _ _)
    (writesKey_self p)
  rw [lastWriter_append, lastWriter_append, ← hsuf, hw]

/-! ## The variable mapping: claims -/

/-- C4 as stated fails: with the arguments `a-b` (default `1`) and `a_b`
(default `2`), two distinct names, and no bound input, the mapping holds `1`
under the hyphenated name `a-b` and `2` under its underscore form `a_b`. -/
theorem convert_hyphen_alias_counterexample :
    (ConvertInputToTplVars ({ Args := [], Opts := [] } : Input String)
        { Arguments := [{ Name := "a-b", Default := "1" }, { Name := "a_b", Default := "2" }],
          Options := [] }).find "a-b" = some "1" ∧
      (ConvertInputToTplVars ({ Args := [], Opts := [] } : Input String)
        { Arguments := [{ Name := "a-b", Default := "1" }, { Name := "a_b", Default := "2" }],
          Options := [] }).find (replDashes "a-b") = some "2" ∧
      replDashes "a-b" = "a_b" := by
  decide

/-- C4, amended: for every action definition and input and every declared
parameter such that no parameter declared after it (later in its list or, for an
argument, any option) has a different name with the same underscore form, the
mapping returned by `ConvertInputToTplVars` holds one and the same value under
the parameter's name and under the name with every `-` replaced by `_`. -/
theorem convert_hyphen_alias_same_value {V : Type} (input : Input V) (ac : DefAction V)
    (pre post : ParametersList V) (p : ParameterDef V) :
    (ac.Arguments = pre ++ p :: post →
      (∀ q, q ∈ post ∨ q ∈ ac.Options →
        replDashes q.Name = replDashes p.Name → q.Name = p.Name) →
      ∃ v, (ConvertInputToTplVars input ac).find p.Name = some v ∧
        (ConvertInputToTplVars input ac).find (replDashes p.Name) = some v) ∧
    (ac.Options = pre ++ p :: post →
      (∀ q, q ∈ post → replDashes q.Name = replDashes p.Name → q.Name = p.Name) →
      ∃ v, (ConvertInputToTplVars input ac).find p.Name = some v ∧
        (ConvertInputToTplVars input ac).find (replDashes p.Name) = some v) := by
  refine ⟨?_, ?_⟩
  · intro hargs hlater
    have hl := lastWriter_alias_suffix pre post p (fun q hq => hlater q (Or.inl hq))
    have ho := lastWriter_congr p.Name (replDashes p.Name) ac.Options
      (fun q hq => writesKey_alias_of_same_name p q (hlater q (Or.inr hq)))
    obtain ⟨w, hw⟩ := lastWriter_isSome p.Name (pre ++ p :: post) p (by simp)
      (writesKey_self p)
    rw [find_ConvertInputToTplVars, find_ConvertInputToTplVars, ← ho, hargs, ← hl, hw]
    cases lastWriter p.Name ac.Options with
    | some q => exact ⟨_, rfl, rfl⟩
    | none => exact ⟨_, rfl, rfl⟩
  · intro hopts hlater
    have hl := lastWriter_alias_suffix pre post p hlater
    obtain ⟨w, hw⟩ := lastWriter_isSome p.Name (pre ++ p :: post) p (by simp)
      (writesKey_self p)
    rw [find_ConvertInputToTplVars, find_ConvertInputToTplVars, hopts, ← hl, hw]
    exact ⟨_, rfl, rfl⟩

/-- C4, amended, at the sample action: its option `my-name` is readable as
`my-name` and as `my_name`, and so is the argument `a-b` declared after an
argument `a_b`. -/
theorem convert_hyphen_alias_same_value_witness :
    (∃ v, (ConvertInputToTplVars sampleAction.Input sampleAction.ActionDef).find "my-name" =
        some v ∧
      (ConvertInputToTplVars sampleAction.Input sampleAction.ActionDef).find
        (replDashes "my-name") = some v) ∧
    (∃ v, (ConvertInputToTplVars ({ Args := [("a-b", "3")], Opts := [] } : Input String)
        { Arguments := [{ Name := "a_b", Default := "1" }, { Name := "a-b", Default := "2" }],
          Options := [] }).find "a-b" = some v ∧
      (ConvertInputToTplVars ({ Args := [("a-b", "3")], Opts := [] } : Input String)
        { Arguments := [{ Name := "a_b", Default := "1" }, { Name := "a-b", Default := "2" }],
          Options := [] }).find (replDashes "a-b") = some v) :=
  ⟨(convert_hyphen_alias_same_value sampleAction.Input sampleAction.ActionDef
      [] [] { Name := "my-name", Default := "anon" }).2 rfl (by intro q hq; cases hq),
   (convert_hyphen_alias_same_value ({ Args := [("a-b", "3")], Opts := [] } : Input String)
      { Arguments := [{ Name := "a_b", Default := "1" }, { Name := "a-b", Default := "2" }],
        Options := [] }
      [{ Name := "a_b", Default := "1" }] [] { Name := "a-b", Default := "2" }).1 rfl
      (by intro q hq; rcases hq with hq | hq <;> cases hq)⟩

/-- C5 as stated fails: with an argument `x` bound to `v` and an option `x`
left unbound with default `o`, the mapping holds the option's default `o` under
`x`, not the value bound to the argument. -/
theorem convert_bound_value_counterexample :
    ({ Args := [("x", "v")], Opts := [] } : Input String).Args.find "x" = some "v" ∧
      (ConvertInputToTplVars ({ Args := [("x", "v")], Opts := [] } : Input String)
        { Arguments := [{ Name := "x", Default := "d" }],
          Options := [{ Name := "x", Default := "o" }] }).find "x" = some "o" := by
  decide

/-- C5, amended: for every declared parameter whose name is written by no
parameter declared after it (a later parameter of its list or, for an argument,
any option, whose name or underscore form equals that name), the mapping
returned by `ConvertInputToTplVars` maps the parameter's name to the value bound
to it in the input map of its list when there is one, and to its default when
there is none. -/
theorem convert_bound_value_overrides_default {V : Type} (input : Input V) (ac : DefAction V)
    (pre post : ParametersList V) (p : ParameterDef V) :
    (ac.Arguments = pre ++ p :: post →
      (∀ q, q ∈ post ∨ q ∈ ac.Options → q.Name ≠ p.Name ∧ replDashes q.Name ≠ p.Name) →
      (∀ v, input.Args.find p.Name = some v →
        (ConvertInputToTplVars input ac).find p.Name = some v) ∧
      (input.Args.find p.Name = none →
        (ConvertInputToTplVars input ac).find p.Name = some p.Default)) ∧
    (ac.Options = pre ++ p :: post →
      (∀ q, q ∈ post → q.Name ≠ p.Name ∧ replDashes q.Name ≠ p.Name) →
      (∀ v, input.Opts.find p.Name = some v →
        (ConvertInputToTplVars input ac).find p.Name = some v) ∧
      (input.Opts.find p.Name = none →
        (ConvertInputToTplVars input ac).find p.Name = some p.Default)) := by
  have hself : writesKey p p.Name = true := by simp [writesKey]
  have hno : ∀ q : ParameterDef V, q.Name ≠ p.Name ∧ replDashes q.Name ≠ p.Name →
      writesKey q p.Name = false := by
    intro q hq
    simp only [writesKey, beq_eq_false_iff_ne.mpr hq.1, beq_eq_false_iff_ne.mpr hq.2]
    rfl
  refine ⟨?_, ?_⟩
  · intro hargs hlater
    have ho : lastWriter p.Name ac.Options = none :=
      lastWriter_eq_none _ _ (fun q hq => hno q (hlater q (Or.inr hq)))
    have ha : lastWriter p.Name ac.Arguments = some p := by
      rw [hargs]
      exact lastWriter_append_cons _ pre post p hself
        (fun q hq => hno q (hlater q (Or.inl hq)))
    have hfind : (ConvertInputToTplVars input ac).find p.Name =
        some (resolvedValue input.Args p) := by
      rw [find_ConvertInputToTplVars, ho, ha]
    refine ⟨?_, ?_⟩
    · intro v hv; rw [hfind]; simp [resolvedValue, hv]
    · intro hv; rw [hfind]; simp [resolvedValue, hv]
  · intro hopts hlater
    have ho : lastWriter p.Name ac.Options = some p := by
      rw [hopts]
      exact lastWriter_append_cons _ pre post p hself (fun q hq => hno q (hlater q hq))
    have hfind : (ConvertInputToTplVars input ac).find p.Name =
        some (resolvedValue input.Opts p) := by
      rw [find_ConvertInputToTplVars, ho]
    refine ⟨?_, ?_⟩
    · intro v hv; rw [hfind]; simp [resolvedValue, hv]
    · intro hv; rw [hfind]; simp [resolvedValue, hv]

/-- C5, amended, at the sample action: the argument `v`, bound to `x`, reads
`x` and not its default; the option `my-name`, unbound, reads its default. -/
theorem convert_bound_value_overrides_default_witness :
    (ConvertInputToTplVars sampleAction.Input sampleAction.ActionDef).find "v" = some "x" ∧
      (ConvertInputToTplVars sampleAction.Input sampleAction.ActionDef).find "my-name" =
        some "anon" :=
  ⟨((convert_bound_value_overrides_default sampleAction.Input sampleAction.ActionDef
      [] [] { Name := "v", Default := "" }).1 rfl
      (by
        intro q hq
        rcases hq with hq | hq
        · cases hq
        · have : q = { Name := "my-name", Default := "anon" } := by
            simpa [sampleAction] using hq
          subst this
          decide)).1 "x" (by decide),
   ((convert_bound_value_overrides_default sampleAction.Input sampleAction.ActionDef
      [] [] { Name := "my-name", Default := "anon" }).2 rfl
      (by intro q hq; cases hq)).2 (by decide)⟩

/-! ## Undefined variables and template errors -/

/-- The names collected by the loop of `findMissingVars` are the names already
collected and the captured names that satisfy the test. -/
theorem mem_foldl_missInsert (cond : String → Bool) (l : List String) :
    ∀ (acc : List String) (k : String),
      k ∈ l.foldl (fun miss k => if cond k then missInsert miss k else miss) acc ↔
        k ∈ acc ∨ (k ∈ l ∧ cond k = true) := by
  induction l with
  | nil => intro acc k; simp
  | cons x rest ih =>
    intro acc k
    rw [List.foldl_cons, ih]
    by_cases hc : cond x = true
    · by_cases hx : x ∈ acc
      · simp only [hc, if_true, missInsert, hx, List.mem_cons]
        constructor
        · rintro (h | ⟨h, hk⟩)
          · exact Or.inl h
          · exact Or.inr ⟨Or.inr h, hk⟩
        · rintro (h | ⟨h | h, hk⟩)
          · exact Or.inl h
          · rw [h]; exact Or.inl hx
          · exact Or.inr ⟨h, hk⟩
      · simp only [hc, if_true, missInsert, hx, if_false, List.mem_append, List.mem_cons,
          List.not_mem_nil, or_false]
        constructor
        · rintro ((h | h) | ⟨h, hk⟩)
          · exact Or.inl h
          · rw [h]; exact Or.inr ⟨Or.inl rfl, hc⟩
          · exact Or.inr ⟨Or.inr h, hk⟩
        · rintro (h | ⟨h | h, hk⟩)
          · exact Or.inl (Or.inl h)
          · exact Or.inl (Or.inr h)
          · exact Or.inr ⟨h, hk⟩
    · simp only [hc, List.mem_cons]
      constructor
      · rintro (h | ⟨h, hk⟩)
        · exact Or.inl h
        · exact Or.inr ⟨Or.inr h, hk⟩
      · rintro (h | ⟨h | h, hk⟩)
        · exact Or.inl h
        · rw [h] at hk; exact absurd hk hc
        · exact Or.inr ⟨h, hk⟩

/-- What `findMissingVars` returns once the rendered output holds the
sentinel: an error exactly when some captured name is not a key, carrying the
captured names that are not keys. -/
theorem findMissingVars_of_sentinel {V : Type} (orig repl : String) (data : GoMap V)
    (hs : contains repl "<no value>" = true) :
    ((∀ k ∈ rgxTplVar.FindAllSubmatch orig, (data.find k).isNone = false) →
      findMissingVars orig repl data = none) ∧
    ((∃ k ∈ rgxTplVar.FindAllSubmatch orig, (data.find k).isNone = true) →
      ∃ vars, findMissingVars orig repl data = some (Err.errMissingVar vars) ∧
        ∀ k, k ∈ vars ↔ (k ∈ rgxTplVar.FindAllSubmatch orig ∧ (data.find k).isNone = true)) := by
  have hmem := mem_foldl_missInsert (fun k => (data.find k).isNone)
    (rgxTplVar.FindAllSubmatch orig) []
  refine ⟨?_, ?_⟩
  · intro hall
    unfold findMissingVars
    simp only [hs, Bool.not_true, Bool.false_eq_true, if_false]
    have hnil : (rgxTplVar.FindAllSubmatch orig).foldl
        (fun miss k => if (data.find k).isNone then missInsert miss k else miss) [] = [] := by
      apply List.eq_nil_iff_forall_not_mem.mpr
      intro k hk
      rcases (hmem k).mp hk with h | ⟨h, hc⟩
      · cases h
      · rw [hall k h] at hc; cases hc
    simp [hnil]
  · rintro ⟨k0, hk0, hc0⟩
    unfold findMissingVars
    simp only [hs, Bool.not_true, Bool.false_eq_true, if_false]
    have hne : (rgxTplVar.FindAllSubmatch orig).foldl
        (fun miss k => if (data.find k).isNone then missInsert miss k else miss) [] ≠ [] := by
      intro h
      have : k0 ∈ (rgxTplVar.FindAllSubmatch orig).foldl
          (fun miss k => if (data.find k).isNone then missInsert miss k else miss) [] :=
        (hmem k0).mpr (Or.inr ⟨hk0, hc0⟩)
      rw [h] at this; cases this
    have hlen : ((rgxTplVar.FindAllSubmatch orig).foldl
        (fun miss k => if (data.find k).isNone then missInsert miss k else miss) []).length
          ≠ 0 := by
      intro h; exact hne (List.length_eq_zero.mp h)
    simp only [bne_iff_ne, ne_eq, hlen, not_false_eq_true, if_true]
    refine ⟨_, rfl, ?_⟩
    intro k
    rw [hmem k]
    simp

/-- C6: the behaviour of the code where the claim fails.  On the source
`{{.x}}{{.y}}`, which contains the field reference `{{.x}}`, with a mapping that
has neither `x` nor `y` and the rendered output `<no value><no value>`, the
pattern captures the single text `x}}{{.y`, and `findMissingVars` and
`inputProcessor.Process` fail with an undefined-variables error whose name set is
that text and contains neither `x` nor `y`; on the source `title: {{.missing}}`
the error names `missing`. -/
theorem findMissingVars_adjacent_references :
    rgxTplVar.FindAllSubmatch "\x7b\x7b.x\x7d\x7d\x7b\x7b.y\x7d\x7d" =
        ["x\x7d\x7d\x7b\x7b.y"] ∧
      findMissingVars "\x7b\x7b.x\x7d\x7d\x7b\x7b.y\x7d\x7d" "<no value><no value>"
        ([("v", "x")] : GoMap String) = some (Err.errMissingVar ["x\x7d\x7d\x7b\x7b.y"]) ∧
      inputProcessor.Process sampleHost fieldTemplate ⟨some sampleAction⟩
        "\x7b\x7b.x\x7d\x7d\x7b\x7b.y\x7d\x7d" =
        ("", some (Err.errMissingVar ["x\x7d\x7d\x7b\x7b.y"])) ∧
      "x" ∉ ["x\x7d\x7d\x7b\x7b.y"] ∧ "y" ∉ ["x\x7d\x7d\x7b\x7b.y"] ∧
      findMissingVars "title: \x7b\x7b.missing\x7d\x7d" "title: <no value>"
        ([("v", "x")] : GoMap String) = some (Err.errMissingVar ["missing"]) := by
  decide

/-- C7 as stated fails: with an empty mapping, the source `title: {{.missing}}`
and the rendered output `title: <no value>`, `findMissingVars` returns the
undefined-variables error naming `missing`; so does `inputProcessor.Process` for
an action without declared parameters. -/
theorem findMissingVars_empty_mapping_counterexample :
    findMissingVars "title: \x7b\x7b.missing\x7d\x7d" "title: <no value>"
        ([] : GoMap String) = some (Err.errMissingVar ["missing"]) ∧
      ConvertInputToTplVars bareAction.Input bareAction.ActionDef = [] ∧
      inputProcessor.Process sampleHost fieldTemplate ⟨some bareAction⟩
        "title: \x7b\x7b.missing\x7d\x7d" = ("", some (Err.errMissingVar ["missing"])) := by
  decide

/-- C7, amended: when the rendered output contains the sentinel `<no value>`
and the variable mapping is empty, `findMissingVars` raises no error exactly
when the pattern finds no field reference in the source; when the source
references a field it raises the undefined-variables error, whose names are the
names captured in the source. -/
theorem findMissingVars_empty_mapping (orig repl : String)
    (hs : contains repl "<no value>" = true) :
    (findMissingVars orig repl ([] : GoMap String) = none ↔
      rgxTplVar.FindAllSubmatch orig = []) ∧
    (rgxTplVar.FindAllSubmatch orig ≠ [] →
      ∃ vars, findMissingVars orig repl ([] : GoMap String) = some (Err.errMissingVar vars) ∧
        vars ≠ [] ∧ ∀ k, k ∈ vars ↔ k ∈ rgxTplVar.FindAllSubmatch orig) := by
  have hspec := findMissingVars_of_sentinel orig repl ([] : GoMap String) hs
  have herr : rgxTplVar.FindAllSubmatch orig ≠ [] →
      ∃ vars, findMissingVars orig repl ([] : GoMap String) = some (Err.errMissingVar vars) ∧
        vars ≠ [] ∧ ∀ k, k ∈ vars ↔ k ∈ rgxTplVar.FindAllSubmatch orig := by
    intro hne
    obtain ⟨k0, hk0⟩ := List.exists_mem_of_ne_nil _ hne
    obtain ⟨vars, hv, hmem⟩ := hspec.2 ⟨k0, hk0, rfl⟩
    refine ⟨vars, hv, ?_, ?_⟩
    · intro h
      have : k0 ∈ vars := (hmem k0).mpr ⟨hk0, rfl⟩
      rw [h] at this; cases this
    · intro k
      rw [hmem k]
      exact ⟨fun h => h.1, fun h => ⟨h, rfl⟩⟩
  refine ⟨⟨?_, ?_⟩, herr⟩
  · intro hnone
    by_contra hne
    obtain ⟨vars, hv, _, _⟩ := herr hne
    rw [hnone] at hv; cases hv
  · intro hnil
    apply hspec.1
    intro k hk
    rw [hnil] at hk; cases hk

/-- C7, amended, at a source without field references and at the source
`title: {{.missing}}`. -/
theorem findMissingVars_empty_mapping_witness :
    contains "title: <no value>" "<no value>" = true ∧
      (findMissingVars "title: none" "title: <no value>" ([] : GoMap String) = none ↔
        rgxTplVar.FindAllSubmatch "title: none" = []) ∧
      (∃ vars, findMissingVars "title: \x7b\x7b.missing\x7d\x7d" "title: <no value>"
          ([] : GoMap String) = some (Err.errMissingVar vars) ∧
        vars ≠ [] ∧ ∀ k, k ∈ vars ↔ k ∈ rgxTplVar.FindAllSubmatch
          "title: \x7b\x7b.missing\x7d\x7d") :=
  ⟨by decide,
    (findMissingVars_empty_mapping "title: none" "title: <no value>" (by decide)).1,
    (findMissingVars_empty_mapping "title: \x7b\x7b.missing\x7d\x7d" "title: <no value>"
      (by decide)).2 (by decide)⟩

/-- C8 as stated fails: for a mapping without a hyphenated key, `checkDashErr`
returns the parser's `bad character U+002D '-'` error unchanged, and so does
`inputProcessor.Process` on the source `{{ .my-name }}` for an action whose only
parameter is `name`; the message returned does not recommend replacing `-`
with `_`. -/
theorem checkDashErr_no_dashed_key_counterexample :
    checkDashErr (some (fieldTemplate.badDash "plain" 1)) ([("name", "x")] : GoMap String) =
        some (fieldTemplate.badDash "plain" 1) ∧
      fieldTemplate.parse "plain" "\x7b\x7b .my-name \x7d\x7d" =
        some (fieldTemplate.badDash "plain" 1) ∧
      inputProcessor.Process sampleHost fieldTemplate ⟨some plainAction⟩
        "\x7b\x7b .my-name \x7d\x7d" = ("", some (fieldTemplate.badDash "plain" 1)) ∧
      (fieldTemplate.badDash "plain" 1).Error = "template: plain:1: bad character U+002D '-'" ∧
      contains (fieldTemplate.badDash "plain" 1).Error "bad character U+002D '-'" = true ∧
      contains (fieldTemplate.badDash "plain" 1).Error "replace \"-\" with \"_\"" = false := by
  decide

/-- C8, amended: for every variable mapping that has a key containing `-`, when
template parsing fails with an error whose message contains the parser's
`bad character U+002D '-'`, `checkDashErr` returns an error whose message
recommends replacing `-` with `_` in `{{ }}` blocks, and `inputProcessor.Process`
returns that error for every action whose variable mapping it is. -/
theorem checkDashErr_rewrites_dash_error {V : Type} (err : Err) (data : GoMap V)
    (hkey : ∃ k ∈ data.keys, contains k "-" = true)
    (hmsg : contains err.Error "bad character U+002D '-'" = true) :
    (∃ e, checkDashErr (some err) data = some e ∧
      contains e.Error "replace \"-\" with \"_\" in \x7b\x7b \x7d\x7d blocks" = true) ∧
    (∀ (h : Host V) (eng : TemplateEngine V) (a : Action V) (b : String),
      addPredefinedVariables h (ConvertInputToTplVars a.Input a.ActionDef) a = data →
      eng.parse a.ID b = some err →
      ∃ e, inputProcessor.Process h eng ⟨some a⟩ b = ("", some e) ∧
        contains e.Error "replace \"-\" with \"_\" in \x7b\x7b \x7d\x7d blocks" = true) := by
  have hany : data.keys.any (fun k => contains k "-") = true := by
    obtain ⟨k, hk, hc⟩ := hkey
    exact List.any_eq_true.mpr ⟨k, hk, hc⟩
  have hcheck : checkDashErr (some err) data = some (Err.msg dashErrText) := by
    simp [checkDashErr, hany, hmsg]
  have htext : contains (Err.msg dashErrText).Error
      "replace \"-\" with \"_\" in \x7b\x7b \x7d\x7d blocks" = true := by decide
  refine ⟨⟨_, hcheck, htext⟩, ?_⟩
  intro h eng a b hdata hparse
  refine ⟨Err.msg dashErrText, ?_, htext⟩
  simp only [inputProcessor.Process, hdata, hparse, hcheck]

/-- C8, amended, at the sample action, whose option `my-name` gives the mapping
a hyphenated key, on the source `{{ .my-name }}`. -/
theorem checkDashErr_rewrites_dash_error_witness :
    (∃ k ∈ GoMap.keys (addPredefinedVariables sampleHost
        (ConvertInputToTplVars sampleAction.Input sampleAction.ActionDef) sampleAction),
        contains k "-" = true) ∧
      contains (fieldTemplate.badDash "sample" 1).Error "bad character U+002D '-'" = true ∧
      fieldTemplate.parse sampleAction.ID "\x7b\x7b .my-name \x7d\x7d" =
        some (fieldTemplate.badDash "sample" 1) ∧
      ∃ e, inputProcessor.Process sampleHost fieldTemplate ⟨some sampleAction⟩
          "\x7b\x7b .my-name \x7d\x7d" = ("", some e) ∧
        contains e.Error "replace \"-\" with \"_\" in \x7b\x7b \x7d\x7d blocks" = true :=
  ⟨⟨"my-name", by decide, by decide⟩, by decide, by decide,
    (checkDashErr_rewrites_dash_error (fieldTemplate.badDash "sample" 1)
      (addPredefinedVariables sampleHost
        (ConvertInputToTplVars sampleAction.Input sampleAction.ActionDef) sampleAction)
      ⟨"my-name", by decide, by decide⟩ (by decide)).2
      sampleHost fieldTemplate sampleAction "\x7b\x7b .my-name \x7d\x7d" rfl (by decide)⟩

/-! ## Environment expansion: claims -/

/-- C9: the lookup that `envProcessor.Process` hands to `os.Expand` returns, for
a name, the predefined variable's value when the name is a predefined variable,
whatever the process environment holds; otherwise the process environment's
value for the name; and the empty string when the name is defined in neither. -/
theorem envProcessor_lookup_order {V : Type} (h : Host V) (ctx : LoadContext V) (b : String)
    (key : String) :
    envProcessor.Process h ctx b =
        (Expand b (envProcessor.getenv (h.newPredefinedVars ctx.Action) h.environ), none) ∧
      (∀ v, (h.newPredefinedVars ctx.Action).getenv key = some v →
        envProcessor.getenv (h.newPredefinedVars ctx.Action) h.environ key = v) ∧
      ((h.newPredefinedVars ctx.Action).getenv key = none →
        ∀ v, h.environ key = some v →
          envProcessor.getenv (h.newPredefinedVars ctx.Action) h.environ key = v) ∧
      ((h.newPredefinedVars ctx.Action).getenv key = none → h.environ key = none →
        envProcessor.getenv (h.newPredefinedVars ctx.Action) h.environ key = "") := by
  refine ⟨rfl, ?_, ?_, ?_⟩
  · intro v hv
    simp [envProcessor.getenv, hv]
  · intro hp v hv
    simp [envProcessor.getenv, hp, Getenv, hv]
  · intro hp hv
    simp [envProcessor.getenv, hp, Getenv, hv]

/-- C9 at a host whose predefined variable `ACTION_ID` is also set, to another
value, in the process environment, next to `FOO`; `NOPE` is defined nowhere. -/
theorem envProcessor_lookup_order_witness :
    (envProcessor.getenv (predefinedHost.newPredefinedVars (some sampleAction))
        predefinedHost.environ "ACTION_ID" = "sample" ∧
      predefinedHost.environ "ACTION_ID" = some "other") ∧
      envProcessor.getenv (predefinedHost.newPredefinedVars (some sampleAction))
        predefinedHost.environ "FOO" = "bar" ∧
      envProcessor.getenv (predefinedHost.newPredefinedVars (some sampleAction))
        predefinedHost.environ "NOPE" = "" ∧
      envProcessor.Process predefinedHost ⟨some sampleAction⟩ "${ACTION_ID} $FOO ${NOPE}." =
        ("sample bar .", none) :=
  ⟨⟨(envProcessor_lookup_order predefinedHost ⟨some sampleAction⟩ "" "ACTION_ID").2.1
      "sample" (by decide), by decide⟩,
    (envProcessor_lookup_order predefinedHost ⟨some sampleAction⟩ "" "FOO").2.2.1
      (by decide) "bar" (by decide),
    (envProcessor_lookup_order predefinedHost ⟨some sampleAction⟩ "" "NOPE").2.2.2
      (by decide) (by decide),
    by decide⟩

/-- C10: for every load context, with or without an action, and every input
bytes, `envProcessor.Process` returns a nil error. -/
theorem envProcessor_never_errors {V : Type} (h : Host V) (ctx : LoadContext V) (b : String) :
    (envProcessor.Process h ctx b).2 = none ∧
      (envProcessor.Process h ⟨none⟩ b).2 = none ∧
      ∀ a : Action V, (envProcessor.Process h ⟨some a⟩ b).2 = none :=
  ⟨rfl, rfl, fun _ => rfl⟩

/-! ## Raw mode, decoration, and the two error helpers: claims -/

/-- C11: for every input bytes `b`, `inputProcessor.Process` called with a load
context whose action is absent returns exactly `b` and a nil error, whatever the
template engine would make of `b`: the placeholders are kept as they are and no
undefined-variable or template error arises. -/
theorem inputProcessor_raw_mode {V : Type} (h : Host V) (eng : TemplateEngine V) (b : String) :
    inputProcessor.Process h eng ⟨none⟩ b = (b, none) ∧
      (inputProcessor.Process h eng ⟨none⟩ b).2 = none ∧
      inputProcessor.Process sampleHost fieldTemplate ⟨none⟩
        "title: \x7b\x7b.missing\x7d\x7d \x7b\x7b .my-name \x7d\x7d" =
        ("title: \x7b\x7b.missing\x7d\x7d \x7b\x7b .my-name \x7d\x7d", none) :=
  ⟨rfl, rfl, rfl⟩

/-- C13: for every action whose ID does not start with `test-print-input:`, the
decorator `pluginPrintInput` leaves the action unchanged, its ID, definition,
input and attached runtime being those of before, and a second invocation
leaves it unchanged again; whenever the decorator changes the runtime, the ID
has the prefix. -/
theorem pluginPrintInput_no_match_is_noop {V : Type} (a : Action V) :
    (hasPrefix a.ID "test-print-input:" = false →
      pluginPrintInput a = a ∧ pluginPrintInput (pluginPrintInput a) = a ∧
      (pluginPrintInput a).ID = a.ID ∧ (pluginPrintInput a).ActionDef = a.ActionDef ∧
      (pluginPrintInput a).Input = a.Input ∧ (pluginPrintInput a).runtime = a.runtime) ∧
    ((pluginPrintInput a).runtime ≠ a.runtime → hasPrefix a.ID "test-print-input:" = true) := by
  refine ⟨?_, ?_⟩
  · intro hp
    have h1 : pluginPrintInput a = a := by simp [pluginPrintInput, hp]
    refine ⟨h1, by rw [h1, h1], ?_, ?_, ?_, ?_⟩ <;> rw [h1]
  · intro hr
    by_contra hp
    have hp' : hasPrefix a.ID "test-print-input:" = false := by simpa using hp
    apply hr
    simp [pluginPrintInput, hp']

/-- C13 at the sample action, outside the filter, and at an action inside it,
whose runtime is replaced. -/
theorem pluginPrintInput_no_match_is_noop_witness :
    (hasPrefix sampleAction.ID "test-print-input:" = false ∧
      pluginPrintInput sampleAction = sampleAction ∧
      pluginPrintInput (pluginPrintInput sampleAction) = sampleAction) ∧
    ((pluginPrintInput printAction).runtime ≠ printAction.runtime ∧
      hasPrefix printAction.ID "test-print-input:" = true) :=
  ⟨⟨by decide,
      ((pluginPrintInput_no_match_is_noop sampleAction).1 (by decide)).1,
      ((pluginPrintInput_no_match_is_noop sampleAction).1 (by decide)).2.1⟩,
    by decide,
    (pluginPrintInput_no_match_is_noop printAction).2 (by decide)⟩

theorem GoMap.find_isNone_iff {V : Type} (m : GoMap V) (k : String) :
    (m.find k).isNone = true ↔ k ∉ m.keys := by
  induction m with
  | nil => simp [GoMap.find, GoMap.keys]
  | cons e rest ih =>
    obtain ⟨ek, ev⟩ := e
    by_cases hk : k = ek
    · subst hk
      simp [GoMap.find, GoMap.keys, List.lookup]
    · have hne : (k == ek) = false := by simpa using hk
      have ih' : (List.lookup k rest).isNone = true ↔ k ∉ List.map Prod.fst rest := ih
      simp only [GoMap.find, GoMap.keys, List.lookup, hne, List.map_cons, List.mem_cons, hk,
        false_or]
      exact ih'

/-- C14: `findMissingVars` returns an error if and only if the rendered output
contains `<no value>` and at least one name captured by the field-reference
pattern in the source is not a key of the mapping; an error it returns is the
undefined-variables error, whose name set is non-empty and is exactly the set
of captured names that are not keys of the mapping. -/
theorem findMissingVars_error_iff {V : Type} (orig repl : String) (data : GoMap V) :
    (findMissingVars orig repl data ≠ none ↔
      (contains repl "<no value>" = true ∧
        ∃ k ∈ rgxTplVar.FindAllSubmatch orig, k ∉ data.keys)) ∧
    (∀ e, findMissingVars orig repl data = some e →
      ∃ vars, e = Err.errMissingVar vars ∧ vars ≠ [] ∧
        ∀ k, k ∈ vars ↔ (k ∈ rgxTplVar.FindAllSubmatch orig ∧ k ∉ data.keys)) := by
  by_cases hs : contains repl "<no value>" = true
  · have hspec := findMissingVars_of_sentinel orig repl data hs
    by_cases hex : ∃ k ∈ rgxTplVar.FindAllSubmatch orig, (data.find k).isNone = true
    · obtain ⟨vars, hv, hmem⟩ := hspec.2 hex
      obtain ⟨k0, hk0, hc0⟩ := hex
      refine ⟨?_, ?_⟩
      · rw [hv]
        simp only [ne_eq, reduceCtorEq, not_false_eq_true, true_iff]
        exact ⟨hs, k0, hk0, (GoMap.find_isNone_iff data k0).mp hc0⟩
      · intro e he
        rw [hv] at he
        refine ⟨vars, (Option.some.inj he).symm, ?_, ?_⟩
        · intro hnil
          have : k0 ∈ vars := (hmem k0).mpr ⟨hk0, hc0⟩
          rw [hnil] at this; cases this
        · intro k
          rw [hmem k, GoMap.find_isNone_iff]
    · have hall : ∀ k ∈ rgxTplVar.FindAllSubmatch orig, (data.find k).isNone = false := by
        intro k hk
        by_contra hc
        exact hex ⟨k, hk, by simpa using hc⟩
      have hnone := hspec.1 hall
      refine ⟨?_, ?_⟩
      · rw [hnone]
        simp only [ne_eq, not_true_eq_false, false_iff]
        rintro ⟨_, k, hk, hkey⟩
        exact hex ⟨k, hk, (GoMap.find_isNone_iff data k).mpr hkey⟩
      · intro e he
        rw [hnone] at he; cases he
  · have hnone : findMissingVars orig repl data = none := by
      simp [findMissingVars, hs]
    refine ⟨?_, ?_⟩
    · rw [hnone]
      simp only [ne_eq, not_true_eq_false, false_iff]
      rintro ⟨h, _⟩
      exact hs h
    · intro e he
      rw [hnone] at he; cases he

/-- C14 on the source `{{.v}} {{ .missing }} {{ .other }}` with a mapping that
has `v` only: the error names `missing` and `other`, not `v`. -/
theorem findMissingVars_error_iff_witness :
    findMissingVars "\x7b\x7b .v \x7d\x7d \x7b\x7b .missing \x7d\x7d \x7b\x7b .other \x7d\x7d"
        "x <no value> <no value>" ([("v", "x")] : GoMap String) =
        some (Err.errMissingVar ["missing", "other"]) ∧
      ∃ vars, Err.errMissingVar ["missing", "other"] = Err.errMissingVar vars ∧ vars ≠ [] ∧
        ∀ k, k ∈ vars ↔
          (k ∈ rgxTplVar.FindAllSubmatch
            "\x7b\x7b .v \x7d\x7d \x7b\x7b .missing \x7d\x7d \x7b\x7b .other \x7d\x7d" ∧
            k ∉ GoMap.keys ([("v", "x")] : GoMap String)) :=
  ⟨by decide,
    (findMissingVars_error_iff
      "\x7b\x7b .v \x7d\x7d \x7b\x7b .missing \x7d\x7d \x7b\x7b .other \x7d\x7d"
      "x <no value> <no value>" ([("v", "x")] : GoMap String)).2 _ (by decide)⟩

/-- C15: the behaviour of the code where the claim fails.  On the source
`{{.x}}{{.y}}`, two adjacent field references, the pattern yields one candidate
name, `x}}{{.y`: it contains `}` and `{`, it spans both `{{ }}` regions, and it
is neither `x` nor `y`.  On `{{.a}} {{.b}}` the candidate is `a}}`, and on
`{{ .a }} {{ .b }}` the candidates are `a` and `b`. -/
theorem rgxTplVar_captures_braces :
    rgxTplVar.FindAllSubmatch "\x7b\x7b.x\x7d\x7d\x7b\x7b.y\x7d\x7d" =
        ["x\x7d\x7d\x7b\x7b.y"] ∧
      '\x7d' ∈ "x\x7d\x7d\x7b\x7b.y".data ∧ '\x7b' ∈ "x\x7d\x7d\x7b\x7b.y".data ∧
      "x" ∉ rgxTplVar.FindAllSubmatch "\x7b\x7b.x\x7d\x7d\x7b\x7b.y\x7d\x7d" ∧
      "y" ∉ rgxTplVar.FindAllSubmatch "\x7b\x7b.x\x7d\x7d\x7b\x7b.y\x7d\x7d" ∧
      rgxTplVar.FindAllSubmatch "\x7b\x7b.a\x7d\x7d \x7b\x7b.b\x7d\x7d" = ["a\x7d\x7d"] ∧
      rgxTplVar.FindAllSubmatch "\x7b\x7b .a \x7d\x7d \x7b\x7b .b \x7d\x7d" = ["a", "b"] := by
  decide

/-- C16: `checkDashErr` returns nil if and only if the error it is given is nil;
given a non-nil error, it returns the error with the text
`replace "-" with "_"` when some key of the mapping contains `-` and the
message of the error contains `bad character U+002D '-'`, and it returns the
error it was given, unchanged, in every other case; so, for an error other than
the rewritten one, the rewritten error is returned exactly when both
conditions hold. -/
theorem checkDashErr_cases {V : Type} (err : Option Err) (data : GoMap V) :
    (checkDashErr err data = none ↔ err = none) ∧
    (∀ e, err = some e →
      (((∃ k ∈ data.keys, contains k "-" = true) ∧
          contains e.Error "bad character U+002D '-'" = true) →
        checkDashErr err data = some (Err.msg dashErrText)) ∧
      (¬((∃ k ∈ data.keys, contains k "-" = true) ∧
          contains e.Error "bad character U+002D '-'" = true) →
        checkDashErr err data = some e) ∧
      (e ≠ Err.msg dashErrText →
        (checkDashErr err data = some (Err.msg dashErrText) ↔
          ((∃ k ∈ data.keys, contains k "-" = true) ∧
            contains e.Error "bad character U+002D '-'" = true)))) := by
  have hany : data.keys.any (fun k => contains k "-") = true ↔
      ∃ k ∈ data.keys, contains k "-" = true := by
    simp [List.any_eq_true]
  have hyes : ∀ e : Err, ((∃ k ∈ data.keys, contains k "-" = true) ∧
      contains e.Error "bad character U+002D '-'" = true) →
      checkDashErr (some e) data = some (Err.msg dashErrText) := by
    intro e hc
    simp only [checkDashErr, hany.mpr hc.1, hc.2, Bool.and_self, if_true]
  have hno : ∀ e : Err, ¬((∃ k ∈ data.keys, contains k "-" = true) ∧
      contains e.Error "bad character U+002D '-'" = true) →
      checkDashErr (some e) data = some e := by
    intro e hc
    have hb : (data.keys.any (fun k => contains k "-") &&
        contains e.Error "bad character U+002D '-'") = false := by
      rw [Bool.and_eq_false_iff]
      by_cases h1 : data.keys.any (fun k => contains k "-") = true
      · right
        by_contra h2
        exact hc ⟨hany.mp h1, by simpa using h2⟩
      · left; simpa using h1
    simp only [checkDashErr, hb, Bool.false_eq_true, if_false]
  refine ⟨?_, ?_⟩
  · cases err with
    | none => simp [checkDashErr]
    | some e =>
      simp only [reduceCtorEq, iff_false]
      by_cases hc : ((∃ k ∈ data.keys, contains k "-" = true) ∧
          contains e.Error "bad character U+002D '-'" = true)
      · rw [hyes e hc]; simp
      · rw [hno e hc]; simp
  · intro e he
    subst he
    refine ⟨hyes e, hno e, ?_⟩
    intro hne
    constructor
    · intro hres
      by_contra hc
      rw [hno e hc] at hres
      exact hne (Option.some.inj hres)
    · exact hyes e

/-- C16 at the parser's error for `{{ .my-name }}`: rewritten for a mapping
with the key `my-name`, returned unchanged for a mapping with the key `name`
only, and nil for a nil error. -/
theorem checkDashErr_cases_witness :
    checkDashErr (some (fieldTemplate.badDash "sample" 1))
        ([("my-name", "anon"), ("my_name", "anon")] : GoMap String) =
        some (Err.msg dashErrText) ∧
      checkDashErr (some (fieldTemplate.badDash "sample" 1))
        ([("name", "x")] : GoMap String) = some (fieldTemplate.badDash "sample" 1) ∧
      (checkDashErr (none : Option Err) ([("my-name", "anon")] : GoMap String) = none ↔
        (none : Option Err) = none) :=
  ⟨((checkDashErr_cases (some (fieldTemplate.badDash "sample" 1))
      ([("my-name", "anon"), ("my_name", "anon")] : GoMap String)).2 _ rfl).1
      ⟨⟨"my-name", by decide, by decide⟩, by decide⟩,
    ((checkDashErr_cases (some (fieldTemplate.badDash "sample" 1))
      ([("name", "x")] : GoMap String)).2 _ rfl).2.1 (by decide),
    (checkDashErr_cases (none : Option Err) ([("my-name", "anon")] : GoMap String)).1⟩

/-! ## Predefined variables and the keys of the mapping: claims -/

theorem find_foldl_put_of_not_mem {V : Type} (l : GoMap V) (k : String)
    (hk : k ∉ l.keys) :
    ∀ data : GoMap V, (l.foldl (fun data kv => data.put kv.1 kv.2) data).find k = data.find k := by
  induction l with
  | nil => intro data; rfl
  | cons e rest ih =>
    intro data
    have hk' : k ≠ e.1 ∧ k ∉ GoMap.keys rest := by
      simpa [GoMap.keys] using hk
    rw [List.foldl_cons, ih hk'.2, GoMap.find_put_ne _ _ _ _ hk'.1]

theorem find_foldl_put_of_mem {V : Type} (l : GoMap V) (k : String) (v : V)
    (hnd : l.keys.Nodup) (hmem : (k, v) ∈ l) :
    ∀ data : GoMap V, (l.foldl (fun data kv => data.put kv.1 kv.2) data).find k = some v := by
  induction l with
  | nil => cases hmem
  | cons e rest ih =>
    intro data
    have hnd' : e.1 ∉ GoMap.keys rest ∧ (GoMap.keys rest).Nodup := by
      simpa [GoMap.keys] using hnd
    rw [List.foldl_cons]
    rcases List.mem_cons.mp hmem with heq | hrest
    · subst heq
      rw [find_foldl_put_of_not_mem rest k hnd'.1, GoMap.find_put_self]
    · exact ih hnd'.2 hrest _

theorem GoMap.mem_of_find {V : Type} (m : GoMap V) (k : String) (v : V)
    (h : m.find k = some v) : (k, v) ∈ m := by
  induction m with
  | nil => simp [GoMap.find] at h
  | cons e rest ih =>
    obtain ⟨ek, ev⟩ := e
    by_cases hk : k = ek
    · subst hk
      simp only [GoMap.find, List.lookup, beq_self_eq_true] at h
      rw [Option.some.inj h]
      exact List.mem_cons_self _ _
    · have hne : (k == ek) = false := by simpa using hk
      simp only [GoMap.find, List.lookup, hne] at h
      exact List.mem_cons_of_mem _ (ih h)

/-- C17: for every mapping `data` and every map of predefined template
variables (each key held once), after `addPredefinedVariables` every predefined
key maps to its predefined value, whatever `data` held under that key, and every
key that is not predefined keeps the value it had in `data`. -/
theorem addPredefinedVariables_overrides {V : Type} (h : Host V) (data : GoMap V)
    (a : Action V) (k : String)
    (hmap : (GoMap.keys (h.newPredefinedVars (some a)).templateData).Nodup) :
    (∀ v, (h.newPredefinedVars (some a)).templateData.find k = some v →
      (addPredefinedVariables h data a).find k = some v) ∧
    (k ∉ GoMap.keys (h.newPredefinedVars (some a)).templateData →
      (addPredefinedVariables h data a).find k = data.find k) := by
  refine ⟨?_, ?_⟩
  · intro v hv
    exact find_foldl_put_of_mem _ k v hmap (GoMap.mem_of_find _ k v hv) data
  · intro hk
    exact find_foldl_put_of_not_mem _ k hk data

/-- C17 at a host whose predefined template variable is `action_id`, on a
mapping that already holds `action_id` and `v`. -/
theorem addPredefinedVariables_overrides_witness :
    (GoMap.keys (predefinedHost.newPredefinedVars (some sampleAction)).templateData).Nodup ∧
      (addPredefinedVariables predefinedHost [("action_id", "user"), ("v", "x")]
        sampleAction).find "action_id" = some "sample" ∧
      (addPredefinedVariables predefinedHost [("action_id", "user"), ("v", "x")]
        sampleAction).find "v" = some "x" :=
  ⟨by decide,
    (addPredefinedVariables_overrides predefinedHost [("action_id", "user"), ("v", "x")]
      sampleAction "action_id" (by decide)).1 "sample" (by decide),
    ((addPredefinedVariables_overrides predefinedHost [("action_id", "user"), ("v", "x")]
      sampleAction "v" (by decide)).2 (by decide)).trans (by decide)⟩

theorem lastWriter_none_iff {V : Type} (k : String) (pdefs : ParametersList V) :
    lastWriter k pdefs = none ↔ ∀ q ∈ pdefs, writesKey q k = false := by
  constructor
  · intro h q hq
    by_contra hw
    obtain ⟨w, hw'⟩ := lastWriter_isSome k pdefs q hq (by simpa using hw)
    rw [h] at hw'; cases hw'
  · exact lastWriter_eq_none k pdefs

/-- The last writer of a key is a parameter of the list that writes the key
and after which no parameter of the list writes it. -/
theorem lastWriter_some {V : Type} (k : String) (pdefs : ParametersList V) :
    ∀ q, lastWriter k pdefs = some q →
      writesKey q k = true ∧
      ∃ pre post, pdefs = pre ++ q :: post ∧ ∀ r ∈ post, writesKey r k = false := by
  induction pdefs with
  | nil => intro q h; cases h
  | cons p rest ih =>
    intro q h
    simp only [lastWriter] at h
    cases hl : lastWriter k rest with
    | some q' =>
      rw [hl] at h
      have hq : q' = q := Option.some.inj h
      subst hq
      obtain ⟨hw, pre, post, hsplit, hpost⟩ := ih q' hl
      exact ⟨hw, p :: pre, post, by rw [hsplit]; rfl, hpost⟩
    | none =>
      rw [hl] at h
      by_cases hw : writesKey p k = true
      · simp only [hw, if_true] at h
        have hq : p = q := Option.some.inj h
        subst hq
        exact ⟨hw, [], rest, rfl, (lastWriter_none_iff k rest).mp hl⟩
      · simp [hw] at h

theorem writesKey_iff {V : Type} (p : ParameterDef V) (k : String) :
    writesKey p k = true ↔ (k = p.Name ∨ k = replDashes p.Name) := by
  simp only [writesKey, Bool.or_eq_true, beq_iff_eq]
  constructor
  · rintro (h | h)
    · exact Or.inl h.symm
    · exact Or.inr h.symm
  · rintro (h | h)
    · exact Or.inl h.symm
    · exact Or.inr h.symm

/-- The keys of the mapping are the keys written by a declared parameter. -/
theorem mem_keys_ConvertInputToTplVars {V : Type} (input : Input V) (ac : DefAction V)
    (k : String) :
    k ∈ GoMap.keys (ConvertInputToTplVars input ac) ↔
      ∃ p, (p ∈ ac.Arguments ∨ p ∈ ac.Options) ∧ writesKey p k = true := by
  have hkey : k ∈ GoMap.keys (ConvertInputToTplVars input ac) ↔
      (ConvertInputToTplVars input ac).find k ≠ none := by
    rw [← not_iff_not, ← GoMap.find_isNone_iff]
    simp
  rw [hkey, find_ConvertInputToTplVars]
  constructor
  · intro hne
    cases ho : lastWriter k ac.Options with
    | some q =>
      obtain ⟨hw, pre, post, hsplit, _⟩ := lastWriter_some k ac.Options q ho
      exact ⟨q, Or.inr (by rw [hsplit]; simp), hw⟩
    | none =>
      cases ha : lastWriter k ac.Arguments with
      | some q =>
        obtain ⟨hw, pre, post, hsplit, _⟩ := lastWriter_some k ac.Arguments q ha
        exact ⟨q, Or.inl (by rw [hsplit]; simp), hw⟩
      | none =>
        rw [ho, ha] at hne
        exact absurd rfl hne
  · rintro ⟨p, hp, hw⟩
    rcases hp with hp | hp
    · obtain ⟨q, hq⟩ := lastWriter_isSome k ac.Arguments p hp hw
      cases ho : lastWriter k ac.Options with
      | some q' => simp
      | none => rw [hq]; simp
    · obtain ⟨q, hq⟩ := lastWriter_isSome k ac.Options p hp hw
      rw [hq]; simp

/-- C18: the key set of the mapping returned by `ConvertInputToTplVars` is
exactly the set of the literal names of the declared parameters, arguments and
options, together with their hyphen-to-underscore aliases: each declared
parameter is present under both forms; a name bound in the input that is
neither the name nor the alias of a declared parameter is not a key; and every
value of the mapping is the default of a declared parameter or the value bound
in the input map of its list under that parameter's literal name. -/
theorem convert_key_set {V : Type} (input : Input V) (ac : DefAction V) :
    (∀ k, k ∈ GoMap.keys (ConvertInputToTplVars input ac) ↔
      ∃ p, (p ∈ ac.Arguments ∨ p ∈ ac.Options) ∧ (k = p.Name ∨ k = replDashes p.Name)) ∧
    (∀ p, p ∈ ac.Arguments ∨ p ∈ ac.Options →
      p.Name ∈ GoMap.keys (ConvertInputToTplVars input ac) ∧
      replDashes p.Name ∈ GoMap.keys (ConvertInputToTplVars input ac)) ∧
    (∀ n, n ∈ GoMap.keys input.Args ∨ n ∈ GoMap.keys input.Opts →
      (∀ p, p ∈ ac.Arguments ∨ p ∈ ac.Options → n ≠ p.Name ∧ n ≠ replDashes p.Name) →
      n ∉ GoMap.keys (ConvertInputToTplVars input ac)) ∧
    (∀ k v, (ConvertInputToTplVars input ac).find k = some v →
      ∃ p, (p ∈ ac.Arguments ∧ (v = p.Default ∨ input.Args.find p.Name = some v)) ∨
        (p ∈ ac.Options ∧ (v = p.Default ∨ input.Opts.find p.Name = some v))) := by
  have hkeys : ∀ k, k ∈ GoMap.keys (ConvertInputToTplVars input ac) ↔
      ∃ p, (p ∈ ac.Arguments ∨ p ∈ ac.Options) ∧ (k = p.Name ∨ k = replDashes p.Name) := by
    intro k
    rw [mem_keys_ConvertInputToTplVars]
    constructor
    · rintro ⟨p, hp, hw⟩
      exact ⟨p, hp, (writesKey_iff p k).mp hw⟩
    · rintro ⟨p, hp, hw⟩
      exact ⟨p, hp, (writesKey_iff p k).mpr hw⟩
  have hres : ∀ (params : GoMap V) (p : ParameterDef V),
      resolvedValue params p = p.Default ∨
        params.find p.Name = some (resolvedValue params p) := by
    intro params p
    unfold resolvedValue
    cases hf : params.find p.Name with
    | none => exact Or.inl rfl
    | some w => exact Or.inr rfl
  refine ⟨hkeys, ?_, ?_, ?_⟩
  · intro p hp
    exact ⟨(hkeys _).mpr ⟨p, hp, Or.inl rfl⟩, (hkeys _).mpr ⟨p, hp, Or.inr rfl⟩⟩
  · intro n _ hnot hmem
    obtain ⟨p, hp, hn⟩ := (hkeys n).mp hmem
    rcases hn with hn | hn
    · exact (hnot p hp).1 hn
    · exact (hnot p hp).2 hn
  · intro k v hv
    rw [find_ConvertInputToTplVars] at hv
    cases ho : lastWriter k ac.Options with
    | some q =>
      rw [ho] at hv
      obtain ⟨_, pre, post, hsplit, _⟩ := lastWriter_some k ac.Options q ho
      have hq : q ∈ ac.Options := by rw [hsplit]; simp
      have hv' : resolvedValue input.Opts q = v := Option.some.inj hv
      refine ⟨q, Or.inr ⟨hq, ?_⟩⟩
      rw [← hv']
      rcases hres input.Opts q with h | h
      · exact Or.inl h
      · exact Or.inr h
    | none =>
      rw [ho] at hv
      cases ha : lastWriter k ac.Arguments with
      | some q =>
        rw [ha] at hv
        obtain ⟨_, pre, post, hsplit, _⟩ := lastWriter_some k ac.Arguments q ha
        have hq : q ∈ ac.Arguments := by rw [hsplit]; simp
        have hv' : resolvedValue input.Args q = v := Option.some.inj hv
        refine ⟨q, Or.inl ⟨hq, ?_⟩⟩
        rw [← hv']
        rcases hres input.Args q with h | h
        · exact Or.inl h
        · exact Or.inr h
      | none =>
        rw [ha] at hv
        cases hv

/-- C18 at the sample action with the undeclared name `stray` also bound in
the input: the keys are `v`, `my-name` and `my_name`, and `stray` is not one. -/
theorem convert_key_set_witness :
    "my-name" ∈ GoMap.keys (ConvertInputToTplVars
        ({ Args := [("v", "x"), ("stray", "s")], Opts := [] } : Input String)
        sampleAction.ActionDef) ∧
      "my_name" ∈ GoMap.keys (ConvertInputToTplVars
        ({ Args := [("v", "x"), ("stray", "s")], Opts := [] } : Input String)
        sampleAction.ActionDef) ∧
      "stray" ∉ GoMap.keys (ConvertInputToTplVars
        ({ Args := [("v", "x"), ("stray", "s")], Opts := [] } : Input String)
        sampleAction.ActionDef) :=
  ⟨((convert_key_set ({ Args := [("v", "x"), ("stray", "s")], Opts := [] } : Input String)
      sampleAction.ActionDef).2.1 { Name := "my-name", Default := "anon" }
      (Or.inr (by decide))).1,
    ((convert_key_set ({ Args := [("v", "x"), ("stray", "s")], Opts := [] } : Input String)
      sampleAction.ActionDef).2.1 { Name := "my-name", Default := "anon" }
      (Or.inr (by decide))).2,
    (convert_key_set ({ Args := [("v", "x"), ("stray", "s")], Opts := [] } : Input String)
      sampleAction.ActionDef).2.2.1 "stray" (Or.inl (by decide))
      (by
        intro p hp
        rcases hp with hp | hp
        · have : p = { Name := "v", Default := "" } := by simpa [sampleAction] using hp
          subst this; decide
        · have : p = { Name := "my-name", Default := "anon" } := by
            simpa [sampleAction] using hp
          subst this; decide)⟩

/-- C19: for every key `k` of the mapping returned by `ConvertInputToTplVars`,
the value under `k` is the resolved value (the value bound in the input map of
its list when there is one, its default otherwise) of the last parameter, in the
order arguments then options and in list order within each, whose literal name
or hyphen-to-underscore alias equals `k`: the last such option when an option
writes `k`, the last such argument when no option does; and every key of the
mapping is written by such a last parameter. -/
theorem convert_last_writer_wins {V : Type} (input : Input V) (ac : DefAction V) (k : String) :
    (∀ pre q post, ac.Options = pre ++ q :: post →
      (k = q.Name ∨ k = replDashes q.Name) →
      (∀ r ∈ post, k ≠ r.Name ∧ k ≠ replDashes r.Name) →
      (ConvertInputToTplVars input ac).find k = some (resolvedValue input.Opts q)) ∧
    (∀ pre q post, ac.Arguments = pre ++ q :: post →
      (k = q.Name ∨ k = replDashes q.Name) →
      (∀ r, r ∈ post ∨ r ∈ ac.Options → k ≠ r.Name ∧ k ≠ replDashes r.Name) →
      (ConvertInputToTplVars input ac).find k = some (resolvedValue input.Args q)) ∧
    (k ∈ GoMap.keys (ConvertInputToTplVars input ac) →
      (∃ pre q post, ac.Options = pre ++ q :: post ∧
        (k = q.Name ∨ k = replDashes q.Name) ∧
        (∀ r ∈ post, k ≠ r.Name ∧ k ≠ replDashes r.Name)) ∨
      (∃ pre q post, ac.Arguments = pre ++ q :: post ∧
        (k = q.Name ∨ k = replDashes q.Name) ∧
        (∀ r, r ∈ post ∨ r ∈ ac.Options → k ≠ r.Name ∧ k ≠ replDashes r.Name))) := by
  have hno : ∀ r : ParameterDef V, (k ≠ r.Name ∧ k ≠ replDashes r.Name) ↔
      writesKey r k = false := by
    intro r
    rw [← Bool.not_eq_true, writesKey_iff]
    exact not_or.symm
  refine ⟨?_, ?_, ?_⟩
  · intro pre q post hsplit hw hpost
    have ho : lastWriter k ac.Options = some q := by
      rw [hsplit]
      exact lastWriter_append_cons k pre post q ((writesKey_iff q k).mpr hw)
        (fun r hr => (hno r).mp (hpost r hr))
    rw [find_ConvertInputToTplVars, ho]
  · intro pre q post hsplit hw hlater
    have ho : lastWriter k ac.Options = none :=
      lastWriter_eq_none k _ (fun r hr => (hno r).mp (hlater r (Or.inr hr)))
    have ha : lastWriter k ac.Arguments = some q := by
      rw [hsplit]
      exact lastWriter_append_cons k pre post q ((writesKey_iff q k).mpr hw)
        (fun r hr => (hno r).mp (hlater r (Or.inl hr)))
    rw [find_ConvertInputToTplVars, ho, ha]
  · intro hmem
    obtain ⟨p, hp, hw⟩ := (mem_keys_ConvertInputToTplVars input ac k).mp hmem
    cases ho : lastWriter k ac.Options with
    | some q =>
      obtain ⟨hwq, pre, post, hsplit, hpost⟩ := lastWriter_some k ac.Options q ho
      exact Or.inl ⟨pre, q, post, hsplit, (writesKey_iff q k).mp hwq,
        fun r hr => (hno r).mpr (hpost r hr)⟩
    | none =>
      have hopts := (lastWriter_none_iff k ac.Options).mp ho
      rcases hp with hp | hp
      · obtain ⟨q, hq⟩ := lastWriter_isSome k ac.Arguments p hp hw
        obtain ⟨hwq, pre, post, hsplit, hpost⟩ := lastWriter_some k ac.Arguments q hq
        refine Or.inr ⟨pre, q, post, hsplit, (writesKey_iff q k).mp hwq, ?_⟩
        intro r hr
        rcases hr with hr | hr
        · exact (hno r).mpr (hpost r hr)
        · exact (hno r).mpr (hopts r hr)
      · rw [hopts p hp] at hw; cases hw

/-- C19 where two parameters collide on a key: the option `x` wins over the
argument `x`, and the argument `a_b`, declared after `a-b`, wins the key `a_b`. -/
theorem convert_last_writer_wins_witness :
    (ConvertInputToTplVars ({ Args := [("x", "v")], Opts := [] } : Input String)
        { Arguments := [{ Name := "x", Default := "d" }],
          Options := [{ Name := "x", Default := "o" }] }).find "x" = some "o" ∧
      (ConvertInputToTplVars ({ Args := [("a-b", "1")], Opts := [] } : Input String)
        { Arguments := [{ Name := "a-b", Default := "" }, { Name := "a_b", Default := "2" }],
          Options := [] }).find "a_b" = some "2" :=
  ⟨((convert_last_writer_wins ({ Args := [("x", "v")], Opts := [] } : Input String)
      { Arguments := [{ Name := "x", Default := "d" }],
        Options := [{ Name := "x", Default := "o" }] } "x").1
      [] { Name := "x", Default := "o" } [] rfl (Or.inl rfl)
      (by intro r hr; cases hr)).trans (by decide),
    ((convert_last_writer_wins ({ Args := [("a-b", "1")], Opts := [] } : Input String)
      { Arguments := [{ Name := "a-b", Default := "" }, { Name := "a_b", Default := "2" }],
        Options := [] } "a_b").2.1
      [{ Name := "a-b", Default := "" }] { Name := "a_b", Default := "2" } [] rfl (Or.inl rfl)
      (by intro r hr; rcases hr with hr | hr <;> cases hr)).trans (by decide)⟩

/-! ## Environment expansion followed by templates -/

/-- The environment stage on the source `${FOO}-{{.v}}` puts the value of
`FOO` in place of the token. -/
theorem envProcessor_foo (val : String) (ctx : LoadContext String) :
    envProcessor.Process (fooHost val) ctx "${FOO}-\x7b\x7b.v\x7d\x7d" =
      (⟨val.data ++ "-\x7b\x7b.v\x7d\x7d".data⟩, none) := by
  rfl

/-- Text without `{` in front of a template is copied by the scanner. -/
theorem fieldTemplate_scan_copies (name : String) (rest : List Char) (ps : List TplPiece)
    (hrest : ∀ line, fieldTemplate.scan name .text line rest = .ok ps) :
    ∀ (pre : List Char) (line : Nat), '\x7b' ∉ pre →
      fieldTemplate.scan name .text line (pre ++ rest) = .ok (pre.map TplPiece.char ++ ps) := by
  intro pre
  induction pre with
  | nil => intro line _; exact hrest line
  | cons c cs ih =>
    intro line hc
    have hc' : c ≠ '\x7b' ∧ '\x7b' ∉ cs := by
      constructor
      · intro h; exact hc (by rw [h]; exact List.mem_cons_self _ _)
      · intro h; exact hc (List.mem_cons_of_mem _ h)
    rw [List.cons_append, fieldTemplate.scan]
    simp only [hc'.1, if_false, ih _ hc'.2]
    rfl

theorem fieldTemplate_render_chars (data : GoMap String) (pre : List Char)
    (ps : List TplPiece) :
    ((pre.map TplPiece.char ++ ps).map (fieldTemplate.render data)).flatten =
      pre ++ (ps.map (fieldTemplate.render data)).flatten := by
  induction pre with
  | nil => rfl
  | cons c cs ih =>
    simp only [List.map_cons, List.cons_append, List.flatten_cons, ih]
    rfl

/-- Text without `{` in front of a source holds no match of the pattern. -/
theorem rgxTplVar_findAll_skips (rest : List Char) :
    ∀ pre : List Char, '\x7b' ∉ pre →
      rgxTplVar.findAll 0 (pre ++ rest) = rgxTplVar.findAll 0 rest := by
  intro pre
  induction pre with
  | nil => intro _; rfl
  | cons c cs ih =>
    intro hc
    have hc' : c ≠ '\x7b' ∧ '\x7b' ∉ cs := by
      constructor
      · intro h; exact hc (by rw [h]; exact List.mem_cons_self _ _)
      · intro h; exact hc (List.mem_cons_of_mem _ h)
    have hm : rgxTplVar.matchHere (c :: (cs ++ rest)) = none := by
      simp [rgxTplVar.matchHere, rgxLit, hc'.1]
    rw [List.cons_append, rgxTplVar.findAll, hm]
    exact ih hc'.2

/-- The template stage on `val-{{.v}}`, for a text `val` without `{` and the
sample action, whose argument `v` is bound to `x`. -/
theorem inputProcessor_foo (val : String) (hval : '\x7b' ∉ val.data) :
    inputProcessor.Process (fooHost val) fieldTemplate ⟨some sampleAction⟩
        ⟨val.data ++ "-\x7b\x7b.v\x7d\x7d".data⟩ = (val ++ "-x", none) := by
  have hscan : fieldTemplate.scan "sample" .text 1 (val.data ++ "-\x7b\x7b.v\x7d\x7d".data) =
      .ok (val.data.map TplPiece.char ++ [TplPiece.char '-', TplPiece.field "v"]) :=
    fieldTemplate_scan_copies "sample" "-\x7b\x7b.v\x7d\x7d".data
      [TplPiece.char '-', TplPiece.field "v"] (fun _ => rfl) val.data 1 hval
  have hdata : addPredefinedVariables (fooHost val)
      (ConvertInputToTplVars sampleAction.Input sampleAction.ActionDef) sampleAction =
      [("my_name", "anon"), ("my-name", "anon"), ("v", "x")] := by
    rfl
  have hparse : fieldTemplate.parse sampleAction.ID ⟨val.data ++ "-\x7b\x7b.v\x7d\x7d".data⟩ =
      none := by
    show (match fieldTemplate.scan "sample" .text 1
      (val.data ++ "-\x7b\x7b.v\x7d\x7d".data) with
      | .ok _ => none
      | .error e => some e) = none
    rw [hscan]
  have hexec : fieldTemplate.execute sampleAction.ID ⟨val.data ++ "-\x7b\x7b.v\x7d\x7d".data⟩
      [("my_name", "anon"), ("my-name", "anon"), ("v", "x")] = (val ++ "-x", none) := by
    show (match fieldTemplate.scan "sample" .text 1
      (val.data ++ "-\x7b\x7b.v\x7d\x7d".data) with
      | .ok ps => ((⟨(ps.map (fieldTemplate.render
          [("my_name", "anon"), ("my-name", "anon"), ("v", "x")])).flatten⟩ : String), none)
      | .error e => ("", some e)) = (val ++ "-x", none)
    rw [hscan]
    simp only [fieldTemplate_render_chars]
    rfl
  have hfind : rgxTplVar.FindAllSubmatch ⟨val.data ++ "-\x7b\x7b.v\x7d\x7d".data⟩ = ["v"] := by
    show rgxTplVar.findAll 0 (val.data ++ "-\x7b\x7b.v\x7d\x7d".data) = ["v"]
    rw [rgxTplVar_findAll_skips _ _ hval]
    decide
  have hmiss : findMissingVars ⟨val.data ++ "-\x7b\x7b.v\x7d\x7d".data⟩ (val ++ "-x")
      ([("my_name", "anon"), ("my-name", "anon"), ("v", "x")] : GoMap String) = none := by
    unfold findMissingVars
    rw [hfind]
    split
    · rfl
    · rfl
  simp only [inputProcessor.Process, hdata, hparse, checkDashErr, hexec, hmiss]

/-- C12 as stated fails: when the value of `FOO` is the text `{{.v}}`, the
first stage turns the source `${FOO}-{{.v}}` into `{{.v}}-{{.v}}` and the
template stage renders the substituted text as a template expression; the
output is `x-x`, in which the substituted text does not appear. -/
theorem env_value_rendered_counterexample :
    envProcessor.Process (fooHost "\x7b\x7b.v\x7d\x7d") ⟨some sampleAction⟩
        "${FOO}-\x7b\x7b.v\x7d\x7d" = ("\x7b\x7b.v\x7d\x7d-\x7b\x7b.v\x7d\x7d", none) ∧
      NewPipeProcessor
        [envProcessor.Process (fooHost "\x7b\x7b.v\x7d\x7d"),
          inputProcessor.Process (fooHost "\x7b\x7b.v\x7d\x7d") fieldTemplate]
        ⟨some sampleAction⟩ "${FOO}-\x7b\x7b.v\x7d\x7d" = ("x-x", none) ∧
      contains "x-x" "\x7b\x7b.v\x7d\x7d" = false := by
  decide

/-- C12, amended: for the pipeline of environment expansion followed by input
templates, with the environment `FOO=bar`, the source `${FOO}-{{.v}}` and the
bound input `v=x`, the output is `bar-x`; for every value of `FOO` that contains
no `{`, the text put in place of the token appears as it is in the output, which
is that value followed by `-x`; and for every host, template engine, context and
source the template stage receives the expanded text, so that a value holding a
template expression is rendered by it. -/
theorem env_then_template (val : String) :
    NewPipeProcessor samplePipeline ⟨some sampleAction⟩ "${FOO}-\x7b\x7b.v\x7d\x7d" =
        ("bar-x", none) ∧
    ('\x7b' ∉ val.data →
      NewPipeProcessor
        [envProcessor.Process (fooHost val), inputProcessor.Process (fooHost val) fieldTemplate]
        ⟨some sampleAction⟩ "${FOO}-\x7b\x7b.v\x7d\x7d" = (val ++ "-x", none)) ∧
    (∀ (h : Host String) (eng : TemplateEngine String) (ctx : LoadContext String) (b : String),
      NewPipeProcessor [envProcessor.Process h, inputProcessor.Process h eng] ctx b =
        inputProcessor.Process h eng ctx
          (Expand b (envProcessor.getenv (h.newPredefinedVars ctx.Action) h.environ))) := by
  have hgen : ∀ (h : Host String) (eng : TemplateEngine String) (ctx : LoadContext String)
      (b : String),
      NewPipeProcessor [envProcessor.Process h, inputProcessor.Process h eng] ctx b =
        inputProcessor.Process h eng ctx
          (Expand b (envProcessor.getenv (h.newPredefinedVars ctx.Action) h.environ)) := by
    intro h eng ctx b
    show pipeProcessor.Process _ ctx b = _
    rw [pipe_cons_ok _ _ ctx b rfl]
    rcases hr : inputProcessor.Process h eng ctx (envProcessor.Process h ctx b).1 with ⟨b', e⟩
    have hr' : inputProcessor.Process h eng ctx
        (Expand b (envProcessor.getenv (h.newPredefinedVars ctx.Action) h.environ)) =
        (b', e) := hr
    rw [hr']
    cases e with
    | none =>
      rw [pipe_cons_ok _ _ ctx _ (by rw [hr])]
      rw [hr]
      rfl
    | some e => rw [pipe_cons_err _ _ ctx _ (by rw [hr]; simp), hr]
  refine ⟨by decide, ?_, hgen⟩
  intro hval
  rw [hgen]
  have henv := envProcessor_foo val ⟨some sampleAction⟩
  have hexp : Expand "${FOO}-\x7b\x7b.v\x7d\x7d"
      (envProcessor.getenv ((fooHost val).newPredefinedVars (some sampleAction))
        (fooHost val).environ) = ⟨val.data ++ "-\x7b\x7b.v\x7d\x7d".data⟩ :=
    congrArg Prod.fst henv
  rw [hexp]
  exact inputProcessor_foo val hval

/-- C12, amended, at the value `a b` of `FOO`. -/
theorem env_then_template_witness :
    '\x7b' ∉ "a b".data ∧
      NewPipeProcessor
        [envProcessor.Process (fooHost "a b"), inputProcessor.Process (fooHost "a b") fieldTemplate]
        ⟨some sampleAction⟩ "${FOO}-\x7b\x7b.v\x7d\x7d" = ("a b-x", none) :=
  ⟨by decide, (env_then_template "a b").2.1 (by decide)⟩

end Launchr
